import Mathlib

/-!
Verification of the query and pack datastore of the fleetdm repository.

The query store (`ApplyQueries`, `SaveQuery`, `loadPacksForQueries`) is a
shallow embedding of `src/server/datastore/mysql/queries.go`: the relational
table of queries becomes a list of rows, the SQL statements become pure
functions on that list, and the surrounding transaction becomes an explicit
commit-or-rollback wrapper.  The pack reconciler, the system-pack lifecycle
and the host membership resolver are not present in the source tree (only
their tests are), so those definitions are modelled from the specification
document, as their doc comments state.
-/

namespace Fleet

/-- Errors surfaced by the datastore: `notFound` mirrors the `notFound(...)`
constructor used by the Go code, `validation` a plain `errors.New` message. -/
inductive StoreError where
  | notFound (entity : String) (id : Nat)
  | validation (msg : String)
  deriving DecidableEq, Repr

/-- A row of the `packs` table as seen by the query store join
(`fleet.Pack` restricted to the fields the claims need). -/
structure Pack where
  id : Nat
  name : String
  disabled : Bool
  deriving DecidableEq, Repr

/-- A persisted row of the `queries` table: the columns named by
`queries.go`, plus `createdAt` for the implicit `created_at` column. -/
structure QueryRow where
  id : Nat
  name : String
  description : String
  query : String
  authorID : Nat
  saved : Bool
  observerCanRun : Bool
  createdAt : Nat
  deriving DecidableEq, Repr

/-- The in-memory `fleet.Query` value passed to the store.  `packs` is
`Option (List Pack)` so that a `nil` Go slice (absent) is distinguished
from an empty one. -/
structure Query where
  id : Nat
  name : String
  description : String
  query : String
  authorID : Nat
  saved : Bool
  observerCanRun : Bool
  packs : Option (List Pack)
  deriving DecidableEq, Repr

/-- A row of the `scheduled_queries` table, restricted to the two columns
the `loadPacksForQueries` join reads. -/
structure ScheduledQueryRow where
  packId : Nat
  queryName : String
  deriving DecidableEq, Repr

/-- The relational state touched by `queries.go`: the `queries` table, the
`packs` and `scheduled_queries` tables read by the join, the id sequence
and a clock supplying `created_at` values. -/
structure QueryDb where
  rows : List QueryRow
  packs : List Pack
  scheduled : List ScheduledQueryRow
  nextID : Nat
  now : Nat
  deriving DecidableEq, Repr

/-- One execution of the prepared `INSERT ... ON DUPLICATE KEY UPDATE`
statement of `ApplyQueries`: on a duplicate of the unique `name` key the
update touches name, description, query, author_id, saved and
observer_can_run (`saved` receives the hardcoded `true` of the VALUES
clause); otherwise a fresh row is inserted with `saved = true`. -/
def upsertQuery (db : QueryDb) (authorID : Nat) (q : Query) : QueryDb :=
  if db.rows.any (fun r => r.name == q.name) then
    { db with rows := db.rows.map (fun r =>
        if r.name == q.name then
          { r with name := q.name, description := q.description,
                   query := q.query, authorID := authorID,
                   saved := true, observerCanRun := q.observerCanRun }
        else r) }
  else
    { db with
      rows := db.rows ++
        [{ id := db.nextID, name := q.name, description := q.description,
           query := q.query, authorID := authorID, saved := true,
           observerCanRun := q.observerCanRun, createdAt := db.now }],
      nextID := db.nextID + 1 }

/-- The statement loop of `ApplyQueries`, run against the open transaction:
an empty name aborts with the error of `queries.go`, otherwise the upsert
statement executes and the loop continues. -/
def applyQueriesLoop (authorID : Nat) : QueryDb → List Query → Except StoreError QueryDb
  | db, [] => .ok db
  | db, q :: qs =>
    if q.name = "" then .error (.validation "query name must not be empty")
    else applyQueriesLoop authorID (upsertQuery db authorID q) qs

/-- `ApplyQueries` of `queries.go`: the loop runs inside one transaction;
on success the transaction commits, on any error the deferred rollback
restores the caller-visible state. -/
def ApplyQueries (db : QueryDb) (authorID : Nat) (queries : List Query) :
    QueryDb × Option StoreError :=
  match applyQueriesLoop authorID db queries with
  | .ok tx => (tx, none)
  | .error e => (db, some e)

/-- The row produced by `SaveQuery`'s UPDATE for a matching id. -/
def saveQueryUpdate (q : Query) (r : QueryRow) : QueryRow :=
  { r with name := q.name, description := q.description, query := q.query,
           authorID := q.authorID, saved := q.saved,
           observerCanRun := q.observerCanRun }

/-- `SaveQuery` of `queries.go`: one UPDATE keyed on `id`; when it matches
zero rows the call reports `notFound("Query").WithID(q.ID)`. -/
def SaveQuery (db : QueryDb) (q : Query) : QueryDb × Option StoreError :=
  let updated := { db with rows := db.rows.map (fun r =>
    if r.id == q.id then saveQueryUpdate q r else r) }
  if db.rows.countP (fun r => r.id == q.id) = 0 then
    (updated, some (.notFound "Query" q.id))
  else (updated, none)

/-- The join of `loadPacksForQueries`: packs joined to scheduled_queries on
`p.id = sq.pack_id`, restricted to `query_name IN (names)`, yielding
(pack, query_name) result rows. -/
def joinRows (db : QueryDb) (names : List String) : List (Pack × String) :=
  db.packs.flatMap (fun p =>
    db.scheduled.filterMap (fun sq =>
      if sq.packId == p.id && names.contains sq.queryName then
        some (p, sq.queryName)
      else none))

/-- Distribution of one join result row: the Go code holds a map from name
to query pointer built by iterating the input, so a row's pack is appended
to the LAST query carrying the row's name. -/
def appendToLastMatch : List Query → String → Pack → List Query
  | [], _, _ => []
  | q :: qs, n, p =>
    if qs.any (fun q2 => q2.name == n) then q :: appendToLastMatch qs n p
    else if q.name == n then
      { q with packs := some ((q.packs.getD []) ++ [p]) } :: qs
    else q :: qs

/-- `loadPacksForQueries` of `queries.go`: an empty input returns at once
(the boolean records whether the join was issued); otherwise every query's
pack list is initialised to the empty list, one join runs over the input
names, and each result row's pack is appended to the matching query. -/
def loadPacksForQueries (db : QueryDb) (queries : List Query) :
    List Query × Bool :=
  if queries.isEmpty then (queries, false)
  else
    let cleared := queries.map (fun q => { q with packs := some ([] : List Pack) })
    let names := queries.map (fun q => q.name)
    let rows := joinRows db names
    (rows.foldl (fun qs row => appendToLastMatch qs row.2 row.1) cleared, true)

/-- The query a given name addresses after the distribution loop: the Go
map holds one pointer per name, so lookups are by name. -/
def findByName (qs : List Query) (n : String) : Option Query :=
  qs.find? (fun q => q.name == n)

/-! ### Pack reconciler, membership resolver and system-pack lifecycle

The implementations of ApplyPackSpecs, GetPackSpec(s), ListPacksForHost and
EnsureTeamPack (the mysql pack datastore) are not in the source tree; only
their tests are.  The definitions below are modelled from the specification
document, as each doc comment states. -/

/-- A row of the `teams` directory (owned externally; this core reads
identifier and display name). -/
structure Team where
  id : Nat
  name : String
  deriving DecidableEq, Repr

/-- A row of the `packs` table: identifier, unique name, optional scope
tag (`pack_type`) and the disabled flag. -/
structure PackRow where
  id : Nat
  name : String
  packType : Option String
  disabled : Bool
  deriving DecidableEq, Repr

/-- A stored scheduled-query entry: bound to a pack and a stable query
identifier, carrying the per-entry overrides; each optional override is
`Option` so that unset stays distinct from an explicit zero value. -/
structure ScheduledEntry where
  packId : Nat
  queryId : Nat
  name : String
  description : String
  interval : Nat
  snapshot : Option Bool
  removed : Option Bool
  platform : Option String
  version : Option String
  shard : Option Nat
  denylist : Option Bool
  deriving DecidableEq, Repr

/-- A scheduled-query override of a PackSpec document, addressing its query
by name; optional fields distinguish unset from explicitly false/zero. -/
structure PackSpecQuery where
  queryName : String
  name : String
  description : String
  interval : Nat
  snapshot : Option Bool
  removed : Option Bool
  platform : Option String
  version : Option String
  shard : Option Nat
  denylist : Option Bool
  deriving DecidableEq, Repr

/-- The target block of a PackSpec: labels and teams by name, hosts by
identifier. -/
structure PackSpecTargets where
  labels : List String
  teams : List String
  hosts : List Nat
  deriving DecidableEq, Repr

/-- The external declarative pack document. -/
structure PackSpec where
  name : String
  disabled : Bool
  targets : PackSpecTargets
  queries : List PackSpecQuery
  deriving DecidableEq, Repr

/-- The relational state the pack components read and write: directories
(queries, labels, teams, hosts), the packs table, the scheduled-entry
table, the three pack-target link tables, the latest label-evaluation
results and the pack id sequence.  A label is an (identifier, name) pair;
a host is (identifier, optional team); a label result is
(host, label, boolean), absence meaning unknown. -/
structure FleetDb where
  queries : List QueryRow
  labels : List (Nat × String)
  teams : List Team
  hosts : List (Nat × Option Nat)
  packs : List PackRow
  entries : List ScheduledEntry
  labelPackTargets : List (Nat × Nat)
  hostPackTargets : List (Nat × Nat)
  teamPackTargets : List (Nat × Nat)
  labelResults : List (Nat × Nat × Bool)
  nextPackId : Nat
  deriving DecidableEq, Repr

/-- Name lookup in the label directory. -/
def findLabelByName (db : FleetDb) (n : String) : Option (Nat × String) :=
  db.labels.find? (fun l => l.2 == n)

/-- Identifier lookup in the label directory. -/
def findLabelById (db : FleetDb) (i : Nat) : Option (Nat × String) :=
  db.labels.find? (fun l => l.1 == i)

/-- Name lookup in the team directory. -/
def findTeamByName (db : FleetDb) (n : String) : Option Team :=
  db.teams.find? (fun t => t.name == n)

/-- Identifier lookup in the team directory. -/
def findTeamById (db : FleetDb) (i : Nat) : Option Team :=
  db.teams.find? (fun t => t.id == i)

/-- The saved query a spec entry's query name resolves against: a row of
the queries table with `saved = true` and the given name. -/
def savedQueryNamed (db : FleetDb) (n : String) : Option QueryRow :=
  db.queries.find? (fun q => q.saved && q.name == n)

/-- Identifier lookup in the queries table. -/
def findQueryById (db : FleetDb) (i : Nat) : Option QueryRow :=
  db.queries.find? (fun q => q.id == i)

/-- Sequential fallible map: the first error aborts, mirroring a loop of
statements inside a transaction. -/
def mapME {α β : Type} (f : α → Except StoreError β) : List α → Except StoreError (List β)
  | [] => .ok []
  | a :: as =>
    match f a with
    | .error e => .error e
    | .ok b =>
      match mapME f as with
      | .error e => .error e
      | .ok bs => .ok (b :: bs)

/-- Modelled from the spec: resolution of one label name of a spec's
target block, failing with a descriptive unknown-label error when the name
is absent from the directory (the reconciler implementation is missing
from the source tree). -/
def resolveLabel (db : FleetDb) (n : String) : Except StoreError Nat :=
  match findLabelByName db n with
  | some l => .ok l.1
  | none => .error (.validation ("unknown label '" ++ n ++ "'"))

/-- Modelled from the spec: resolution of one team reference of a spec's
target block (missing reconciler implementation). -/
def resolveTeam (db : FleetDb) (n : String) : Except StoreError Nat :=
  match findTeamByName db n with
  | some t => .ok t.id
  | none => .error (.validation ("unknown team '" ++ n ++ "'"))

/-- The stored scheduled-entry row built for one resolved spec override:
the display name defaults to the query name when blank, the optional
overrides are copied unchanged. -/
def buildEntry (packId : Nat) (e : PackSpecQuery) (q : QueryRow) : ScheduledEntry :=
  { packId := packId, queryId := q.id,
    name := if e.name = "" then e.queryName else e.name,
    description := e.description, interval := e.interval,
    snapshot := e.snapshot, removed := e.removed,
    platform := e.platform, version := e.version,
    shard := e.shard, denylist := e.denylist }

/-- Modelled from the spec: resolution of one scheduled-entry override
against the saved queries, failing the batch with the unknown-query error
when the name does not resolve, and defaulting the entry's display name to
its query name when blank (missing reconciler implementation). -/
def resolveEntry (db : FleetDb) (packId : Nat) (e : PackSpecQuery) :
    Except StoreError ScheduledEntry :=
  match savedQueryNamed db e.queryName with
  | none => .error (.validation ("unknown query '" ++ e.queryName ++ "'"))
  | some q => .ok (buildEntry packId e q)

/-- Modelled from the spec: the upsert of the pack row by name — an
existing pack keeps its identifier and scope tag and takes the spec's
disabled flag, a missing one is created with a fresh identifier (missing
reconciler implementation).  Returns the updated state and the pack id. -/
def upsertPackRow (db : FleetDb) (s : PackSpec) : FleetDb × Nat :=
  match db.packs.find? (fun p => p.name == s.name) with
  | some p =>
    ({ db with packs := db.packs.map (fun p2 =>
        if p2.id == p.id then { p2 with disabled := s.disabled } else p2) }, p.id)
  | none =>
    ({ db with
       packs := db.packs ++
         [{ id := db.nextPackId, name := s.name, packType := none,
            disabled := s.disabled }],
       nextPackId := db.nextPackId + 1 }, db.nextPackId)

/-- Modelled from the spec: the full replace of a pack's target sets and
scheduled-entry list (no incremental merge; missing reconciler
implementation). -/
def replacePack (db : FleetDb) (packId : Nat) (labelIds teamIds : List Nat)
    (hostIds : List Nat) (newEntries : List ScheduledEntry) : FleetDb :=
  { db with
    entries := db.entries.filter (fun e => !(e.packId == packId)) ++ newEntries,
    labelPackTargets :=
      db.labelPackTargets.filter (fun t => !(t.1 == packId)) ++
        labelIds.map (fun l => (packId, l)),
    teamPackTargets :=
      db.teamPackTargets.filter (fun t => !(t.1 == packId)) ++
        teamIds.map (fun tm => (packId, tm)),
    hostPackTargets :=
      db.hostPackTargets.filter (fun t => !(t.1 == packId)) ++
        hostIds.map (fun h => (packId, h)) }

/-- Modelled from the spec: application of one PackSpec — resolve label
and team names, upsert the pack row by name, resolve every entry's query
name (defaulting blank display names), then fully replace the pack's
targets and entries (missing reconciler implementation). -/
def applyOnePackSpec (db : FleetDb) (s : PackSpec) : Except StoreError FleetDb :=
  match mapME (resolveLabel db) s.targets.labels with
  | .error e => .error e
  | .ok labelIds =>
    match mapME (resolveTeam db) s.targets.teams with
    | .error e => .error e
    | .ok teamIds =>
      let up := upsertPackRow db s
      match mapME (resolveEntry up.1 up.2) s.queries with
      | .error e => .error e
      | .ok newEntries =>
        .ok (replacePack up.1 up.2 labelIds teamIds s.targets.hosts newEntries)

/-- The batch loop of the reconciler: specs are applied in order inside one
transaction. -/
def applyPackSpecsLoop : FleetDb → List PackSpec → Except StoreError FleetDb
  | db, [] => .ok db
  | db, s :: rest =>
    match applyOnePackSpec db s with
    | .error e => .error e
    | .ok db1 => applyPackSpecsLoop db1 rest

/-- Modelled from the spec: `ApplyPackSpecs` — the whole batch commits or
none of it does; a failure on spec k rolls back specs 1..k-1 as well
(missing reconciler implementation). -/
def ApplyPackSpecs (db : FleetDb) (specs : List PackSpec) :
    FleetDb × Option StoreError :=
  match applyPackSpecsLoop db specs with
  | .ok db1 => (db1, none)
  | .error e => (db, some e)

/-- Modelled from the spec: the inverse projection of one pack row back to
its declarative document — targets read from the link tables with
identifiers resolved back to names, entries read from the scheduled-entry
table with query identifiers resolved back to names (missing GetPackSpec
implementation). -/
def specOfPack (db : FleetDb) (p : PackRow) : PackSpec :=
  { name := p.name,
    disabled := p.disabled,
    targets :=
      { labels := (db.labelPackTargets.filter (fun t => t.1 == p.id)).filterMap
          (fun t => (findLabelById db t.2).map (fun l => l.2)),
        teams := (db.teamPackTargets.filter (fun t => t.1 == p.id)).filterMap
          (fun t => (findTeamById db t.2).map (fun tm => tm.name)),
        hosts := (db.hostPackTargets.filter (fun t => t.1 == p.id)).map
          (fun t => t.2) },
    queries := (db.entries.filter (fun e => e.packId == p.id)).map (fun e =>
      { queryName := ((findQueryById db e.queryId).map (fun q => q.name)).getD "",
        name := e.name, description := e.description, interval := e.interval,
        snapshot := e.snapshot, removed := e.removed, platform := e.platform,
        version := e.version, shard := e.shard, denylist := e.denylist }) }

/-- Modelled from the spec: `GetPackSpecs`, the exact inverse projection of
every pack (missing implementation). -/
def GetPackSpecs (db : FleetDb) : List PackSpec :=
  db.packs.map (specOfPack db)

/-- Modelled from the spec: `GetPackSpec(name)` (missing implementation). -/
def GetPackSpec (db : FleetDb) (n : String) : Except StoreError PackSpec :=
  match db.packs.find? (fun p => p.name == n) with
  | some p => .ok (specOfPack db p)
  | none => .error (.notFound "Pack" 0)

/-- A spec entry with its display name defaulted to its query name when
blank: what the reconciler stores for it. -/
def normalizeEntry (e : PackSpecQuery) : PackSpecQuery :=
  { e with name := if e.name = "" then e.queryName else e.name }

/-- A spec as the reconciler persists it: entry display names defaulted. -/
def normalizeSpec (s : PackSpec) : PackSpec :=
  { s with queries := s.queries.map normalizeEntry }

/-- The directory keys the round trip relies on: label, team and query
identifiers are unique. -/
@[reducible] def dirGood (db : FleetDb) : Prop :=
  (db.labels.map Prod.fst).Nodup ∧
  (db.teams.map Team.id).Nodup ∧
  (db.queries.map QueryRow.id).Nodup

/-- Every name reference of a spec resolves at apply time. -/
@[reducible] def specResolvable (db : FleetDb) (s : PackSpec) : Prop :=
  (∀ n ∈ s.targets.labels, (findLabelByName db n).isSome) ∧
  (∀ n ∈ s.targets.teams, (findTeamByName db n).isSome) ∧
  (∀ e ∈ s.queries, (savedQueryNamed db e.queryName).isSome)

/-- Modelled from the spec: the team a host belongs to (missing host
datastore implementation; read from the host directory). -/
def hostTeam (db : FleetDb) (hostId : Nat) : Option Nat :=
  (db.hosts.find? (fun h => h.1 == hostId)).bind (fun h => h.2)

/-- Modelled from the spec: the latest recorded label-evaluation result
for a host and a label; absence means unknown, distinct from false
(missing implementation of the evaluation-feed storage). -/
def labelResult (db : FleetDb) (hostId labelId : Nat) : Option Bool :=
  (db.labelResults.find? (fun r => r.1 == hostId && r.2.1 == labelId)).map
    (fun r => r.2.2)

/-- Modelled from the spec: whether at least one targeting criterion of a
pack is satisfied for a host — some targeted label with a recorded true
result, the host directly targeted, or the host's team targeted (missing
ListPacksForHost implementation). -/
def packAppliesToHost (db : FleetDb) (p : PackRow) (hostId : Nat) : Bool :=
  db.labelPackTargets.any
      (fun t => t.1 == p.id && labelResult db hostId t.2 == some true) ||
    db.hostPackTargets.any (fun t => t.1 == p.id && t.2 == hostId) ||
    db.teamPackTargets.any (fun t => t.1 == p.id &&
      (match hostTeam db hostId with
       | some tm => t.2 == tm
       | none => false))

/-- Modelled from the spec: `ListPacksForHost` — the non-disabled packs
with at least one satisfied targeting criterion, computed fresh from the
latest recorded evaluation results (missing implementation). -/
def ListPacksForHost (db : FleetDb) (hostId : Nat) : List PackRow :=
  db.packs.filter (fun p => !p.disabled && packAppliesToHost db p hostId)

/-- Modelled from the spec: the deterministic system-pack name derived
from a team's current display name (missing `teamScheduleName` helper of
the pack datastore). -/
def teamScheduleName (t : Team) : String :=
  "Team: " ++ t.name

/-- Modelled from the spec: the internal scope tag of a team's system
pack, also the legacy display name format (missing
`teamSchedulePackType` helper of the pack datastore). -/
def teamSchedulePackType (t : Team) : String :=
  "team-" ++ toString t.id

/-- Modelled from the spec: `EnsureTeamPack` — NotFound for a missing
team; otherwise the singleton pack for the team's scope tag is created
when absent, and renamed in place (identifier preserved) whenever its name
differs from the deterministic derivation from the team's current display
name (missing implementation). -/
def EnsureTeamPack (db : FleetDb) (teamId : Nat) :
    FleetDb × Except StoreError PackRow :=
  match findTeamById db teamId with
  | none => (db, .error (.notFound "Team" teamId))
  | some t =>
    let pname := teamScheduleName t
    match db.packs.find? (fun p => p.packType == some (teamSchedulePackType t)) with
    | some p =>
      if p.name = pname then (db, .ok p)
      else
        let p1 := { p with name := pname }
        ({ db with packs := db.packs.map (fun p2 =>
            if p2.id == p.id then p1 else p2) }, .ok p1)
    | none =>
      let p : PackRow :=
        { id := db.nextPackId, name := pname,
          packType := some (teamSchedulePackType t), disabled := false }
      let db1 : FleetDb :=
        { db with
          packs := db.packs ++ [p],
          nextPackId := db.nextPackId + 1,
          teamPackTargets := db.teamPackTargets ++ [(p.id, teamId)] }
      (db1, .ok p)

/-- Pack identifiers in use stay below the id sequence: the invariant the
reconciler's fresh-id allocation maintains. -/
def stateBounded (db : FleetDb) : Prop :=
  (∀ p ∈ db.packs, p.id < db.nextPackId) ∧
  (∀ e ∈ db.entries, e.packId < db.nextPackId) ∧
  (∀ t ∈ db.labelPackTargets, t.1 < db.nextPackId) ∧
  (∀ t ∈ db.teamPackTargets, t.1 < db.nextPackId) ∧
  (∀ t ∈ db.hostPackTargets, t.1 < db.nextPackId)

/-- The pack row inserted for a spec whose name is not yet taken. -/
def insertedPack (db : FleetDb) (s : PackSpec) : PackRow :=
  { id := db.nextPackId, name := s.name, packType := none,
    disabled := s.disabled }

/-- The state right after the pack-row upsert inserts a fresh pack. -/
def dbAfterInsert (db : FleetDb) (s : PackSpec) : FleetDb :=
  { db with
    packs := db.packs ++ [insertedPack db s],
    nextPackId := db.nextPackId + 1 }

/-- The state after one fresh-name spec is fully applied: the new pack row
plus its freshly written target and entry rows. -/
def dbAfterApply (db : FleetDb) (s : PackSpec) (labelIds teamIds : List Nat)
    (newEntries : List ScheduledEntry) : FleetDb :=
  { dbAfterInsert db s with
    entries := db.entries ++ newEntries,
    labelPackTargets := db.labelPackTargets ++
      labelIds.map (fun l => (db.nextPackId, l)),
    teamPackTargets := db.teamPackTargets ++
      teamIds.map (fun tm => (db.nextPackId, tm)),
    hostPackTargets := db.hostPackTargets ++
      s.targets.hosts.map (fun h2 => (db.nextPackId, h2)) }

/-! ### Concrete states used to instantiate the theorems -/

/-- A query value as the repository tests pass it. -/
def wQuery : Query :=
  { id := 0, name := "foo", description := "d", query := "select 1",
    authorID := 0, saved := false, observerCanRun := true, packs := none }

/-- A pre-existing row carrying the same name as `wQuery`. -/
def wQueryRow : QueryRow :=
  { id := 1, name := "foo", description := "old", query := "select 0",
    authorID := 9, saved := false, observerCanRun := false, createdAt := 7 }

/-- A one-row query store. -/
def wQdb : QueryDb :=
  { rows := [wQueryRow], packs := [], scheduled := [], nextID := 2, now := 5 }

/-- The row `ApplyQueries` leaves behind when re-applying `wQuery` over
`wQdb`. -/
def wRowAfter : QueryRow :=
  { id := 1, name := "foo", description := "d", query := "select 1",
    authorID := 3, saved := true, observerCanRun := true, createdAt := 7 }

/-- Directories as the repository tests set them up: two saved queries and
three labels, no packs yet. -/
def wFdb : FleetDb :=
  { queries := [
      { id := 10, name := "foo", description := "get the foos",
        query := "select 1", authorID := 1, saved := true,
        observerCanRun := false, createdAt := 0 },
      { id := 11, name := "bar", description := "do some bars",
        query := "select 2", authorID := 1, saved := true,
        observerCanRun := false, createdAt := 0 }],
    labels := [(1, "foo"), (2, "bar"), (3, "bing")],
    teams := [{ id := 1, name := "team1" }],
    hosts := [], packs := [], entries := [], labelPackTargets := [],
    hostPackTargets := [], teamPackTargets := [], labelResults := [],
    nextPackId := 1 }

/-- The two pack specs of the round-trip test, exercising every optional
per-entry field as unset, explicitly false and explicitly set. -/
def wSpecs : List PackSpec := [
  { name := "test_pack", disabled := false,
    targets := { labels := ["foo", "bar", "bing"], teams := [], hosts := [] },
    queries := [
      { queryName := "foo", name := "q0", description := "test_foo",
        interval := 42, snapshot := none, removed := none, platform := none,
        version := none, shard := none, denylist := none },
      { queryName := "foo", name := "foo_snapshot", description := "",
        interval := 600, snapshot := some true, removed := none,
        platform := none, version := none, shard := none,
        denylist := some false },
      { queryName := "bar", name := "q2", description := "", interval := 600,
        snapshot := none, removed := some false, platform := some "foobar",
        version := some "0.0.0.0.0.1", shard := some 73,
        denylist := some true }] },
  { name := "test_pack_disabled", disabled := true,
    targets := { labels := ["foo", "bar", "bing"], teams := [], hosts := [] },
    queries := [
      { queryName := "foo", name := "q0", description := "test_foo",
        interval := 42, snapshot := some true, removed := none,
        platform := none, version := none, shard := none,
        denylist := none }] }]

/-- A spec whose only entry has a blank display name. -/
def wSpecsBlank : List PackSpec := [
  { name := "test2", disabled := false,
    targets := { labels := [], teams := [], hosts := [] },
    queries := [
      { queryName := "foo", name := "", description := "", interval := 600,
        snapshot := none, removed := none, platform := none, version := none,
        shard := none, denylist := none }] }]

/-- A spec referencing a query name no saved query carries. -/
def wSpecsBad : List PackSpec := [
  { name := "test_pack", disabled := false,
    targets := { labels := [], teams := [], hosts := [] },
    queries := [
      { queryName := "zap", name := "", description := "", interval := 600,
        snapshot := none, removed := none, platform := none, version := none,
        shard := none, denylist := none }] }]

/-- The team after a rename. -/
def wTeam : Team := { id := 1, name := "new name!!" }

/-- The team system pack still carrying the name derived before the
rename. -/
def wPack : PackRow :=
  { id := 5, name := "Team: team1", packType := some "team-1",
    disabled := false }

/-- A state holding the renamed team and its stale-named system pack. -/
def wFdb8 : FleetDb := { wFdb with teams := [wTeam], packs := [wPack] }

/-! ### Helper lemmas -/

/-- `find?` by a key is determined by membership when the keys are unique. -/
theorem find_key_unique {β : Type} [BEq β] [LawfulBEq β] {α : Type} (key : α → β) :
    ∀ (xs : List α), (xs.map key).Nodup → ∀ x ∈ xs,
      xs.find? (fun y => key y == key x) = some x := by
  intro xs
  induction xs with
  | nil => intro _ x hx; cases hx
  | cons a as ih =>
    intro hnd x hx
    simp only [List.map_cons, List.nodup_cons] at hnd
    rcases List.mem_cons.mp hx with rfl | hmem
    · simp [List.find?]
    · have hne : key a ≠ key x := by
        intro hk
        exact hnd.1 (hk ▸ List.mem_map_of_mem key hmem)
      have hb : (key a == key x) = false := by simpa using hne
      simp only [List.find?, hb]
      exact ih hnd.2 x hmem

/-- The error branch of the `ApplyQueries` statement loop: an empty name in
the batch produces exactly the empty-name error. -/
theorem applyQueriesLoop_error (authorID : Nat) :
    ∀ (queries : List Query) (db : QueryDb), (∃ q ∈ queries, q.name = "") →
      applyQueriesLoop authorID db queries =
        .error (.validation "query name must not be empty") := by
  intro queries
  induction queries with
  | nil => intro _ h; simp at h
  | cons q qs ih =>
    intro db h
    by_cases hq : q.name = ""
    · simp [applyQueriesLoop, hq]
    · rcases h with ⟨q1, hmem, hname⟩
      rcases List.mem_cons.mp hmem with rfl | hmem1
      · exact absurd hname hq
      · simp only [applyQueriesLoop, if_neg hq]
        exact ih _ ⟨q1, hmem1, hname⟩

/-- The success branch of the `ApplyQueries` statement loop: with no empty
name every statement executes and the loop reaches the commit. -/
theorem applyQueriesLoop_ok (authorID : Nat) :
    ∀ (queries : List Query) (db : QueryDb), (∀ q ∈ queries, q.name ≠ "") →
      ∃ tx, applyQueriesLoop authorID db queries = .ok tx := by
  intro queries
  induction queries with
  | nil => intro db _; exact ⟨db, rfl⟩
  | cons q qs ih =>
    intro db h
    have hq : q.name ≠ "" := h q (List.mem_cons_self q qs)
    rcases ih (upsertQuery db authorID q) (fun q1 h1 => h q1 (List.mem_cons_of_mem q h1)) with
      ⟨tx, htx⟩
    exact ⟨tx, by simp [applyQueriesLoop, if_neg hq, htx]⟩

/-- Rows added or rewritten by one upsert statement carry `saved = true`. -/
theorem upsertQuery_saved (db : QueryDb) (authorID : Nat) (q : Query) :
    ∀ r ∈ (upsertQuery db authorID q).rows, r ∈ db.rows ∨ r.saved = true := by
  intro r hr
  unfold upsertQuery at hr
  by_cases hd : db.rows.any (fun r2 => r2.name == q.name)
  · rw [if_pos hd] at hr
    simp only [List.mem_map] at hr
    rcases hr with ⟨r0, hr0, rfl⟩
    by_cases hn : r0.name == q.name
    · right; simp [hn]
    · left; simpa [hn] using hr0
  · rw [if_neg hd] at hr
    rcases List.mem_append.mp hr with h1 | h1
    · exact Or.inl h1
    · right
      simp only [List.mem_singleton] at h1
      subst h1
      rfl

/-- Across the whole statement loop, every row of the reached state was
either already present or carries `saved = true`. -/
theorem applyQueriesLoop_saved (authorID : Nat) :
    ∀ (queries : List Query) (db tx : QueryDb),
      applyQueriesLoop authorID db queries = .ok tx →
      ∀ r ∈ tx.rows, r ∈ db.rows ∨ r.saved = true := by
  intro queries
  induction queries with
  | nil =>
    intro db tx h r hr
    simp only [applyQueriesLoop] at h
    cases h
    exact Or.inl hr
  | cons q qs ih =>
    intro db tx h r hr
    simp only [applyQueriesLoop] at h
    by_cases hq : q.name = ""
    · rw [if_pos hq] at h; cases h
    · rw [if_neg hq] at h
      rcases ih (upsertQuery db authorID q) tx h r hr with h1 | h1
      · exact upsertQuery_saved db authorID q r h1
      · exact Or.inr h1

/-! ### Claim theorems for the query store -/

/-- C2: a batch containing an entry with an empty name makes `ApplyQueries`
fail with the empty-name error and persist nothing — not even the entries
preceding the offender; in general every error exit rolls the transaction
back, and the commit happens exactly when no entry has an empty name. -/
theorem ApplyQueries_atomicity (db : QueryDb) (authorID : Nat) (queries : List Query) :
    ((∃ q ∈ queries, q.name = "") →
        ApplyQueries db authorID queries =
          (db, some (.validation "query name must not be empty"))) ∧
    (∀ e, (ApplyQueries db authorID queries).2 = some e →
        (ApplyQueries db authorID queries).1 = db) ∧
    ((ApplyQueries db authorID queries).2 = none ↔ ∀ q ∈ queries, q.name ≠ "") := by
  refine ⟨?_, ?_, ?_⟩
  · intro h
    unfold ApplyQueries
    rw [applyQueriesLoop_error authorID queries db h]
  · intro e
    unfold ApplyQueries
    cases h : applyQueriesLoop authorID db queries <;> simp
  · constructor
    · intro h q hq hname
      have := applyQueriesLoop_error authorID queries db ⟨q, hq, hname⟩
      unfold ApplyQueries at h
      rw [this] at h
      simp at h
    · intro h
      rcases applyQueriesLoop_ok authorID queries db h with ⟨tx, htx⟩
      unfold ApplyQueries
      rw [htx]

/-- C10: every row `ApplyQueries` creates or rewrites has `saved = true`
(the insert hardcodes `true` and the conflict update copies it), so no call
can produce a changed row with `saved = false`. -/
theorem ApplyQueries_saved_hardcoded (db : QueryDb) (authorID : Nat)
    (queries : List Query) :
    ∀ r ∈ (ApplyQueries db authorID queries).1.rows, r ∈ db.rows ∨ r.saved = true := by
  intro r hr
  unfold ApplyQueries at hr
  cases h : applyQueriesLoop authorID db queries with
  | ok tx =>
    rw [h] at hr
    exact applyQueriesLoop_saved authorID queries db tx h r hr
  | error e =>
    rw [h] at hr
    exact Or.inl hr

/-- C5: the conflict update of `ApplyQueries` for an existing name touches
only name, description, body, author, saved and observer_can_run; every
row's identifier and creation time survive, rows with other names are
untouched, and the matched row ends with exactly the supplied content. -/
theorem ApplyQueries_conflict_frame (db : QueryDb) (authorID : Nat) (q : Query)
    (hq : q.name ≠ "") (r : QueryRow) (hr : r ∈ db.rows) (hname : r.name = q.name) :
    (ApplyQueries db authorID [q]).2 = none ∧
    (ApplyQueries db authorID [q]).1.rows.map (fun r2 => (r2.id, r2.createdAt)) =
      db.rows.map (fun r2 => (r2.id, r2.createdAt)) ∧
    (∀ r2 ∈ db.rows, r2.name ≠ q.name → r2 ∈ (ApplyQueries db authorID [q]).1.rows) ∧
    (∃ r2 ∈ (ApplyQueries db authorID [q]).1.rows,
      r2.id = r.id ∧ r2.createdAt = r.createdAt ∧ r2.name = q.name ∧
      r2.description = q.description ∧ r2.query = q.query ∧
      r2.authorID = authorID ∧ r2.saved = true ∧
      r2.observerCanRun = q.observerCanRun) := by
  have hloop : applyQueriesLoop authorID db [q] = .ok (upsertQuery db authorID q) := by
    simp [applyQueriesLoop, if_neg hq]
  have happ : ApplyQueries db authorID [q] = (upsertQuery db authorID q, none) := by
    unfold ApplyQueries
    rw [hloop]
  have hany : db.rows.any (fun r2 => r2.name == q.name) = true :=
    List.any_eq_true.mpr ⟨r, hr, by simpa using hname⟩
  have hup : (upsertQuery db authorID q).rows = db.rows.map (fun r2 =>
      if r2.name == q.name then
        { r2 with name := q.name, description := q.description,
                  query := q.query, authorID := authorID,
                  saved := true, observerCanRun := q.observerCanRun }
      else r2) := by
    unfold upsertQuery
    rw [if_pos hany]
  refine ⟨by rw [happ], ?_, ?_, ?_⟩
  · rw [happ]
    simp only [hup, List.map_map]
    refine List.map_congr_left ?_
    intro r2 _
    simp only [Function.comp]
    split <;> rfl
  · intro r2 hr2 hne
    rw [happ]
    simp only [hup]
    refine List.mem_map.mpr ⟨r2, hr2, ?_⟩
    rw [if_neg (by simpa using hne)]
  · rw [happ]
    simp only [hup]
    refine ⟨_, List.mem_map.mpr ⟨r, hr, rfl⟩, ?_⟩
    rw [if_pos (by simpa using hname)]
    simp

/-- C6: `SaveQuery` on an identifier matching no row reports NotFound (zero
rows affected) and leaves the table as it was; on a matching identifier it
returns no error. -/
theorem SaveQuery_notFound (db : QueryDb) (q : Query) :
    ((∀ r ∈ db.rows, r.id ≠ q.id) →
        SaveQuery db q = (db, some (.notFound "Query" q.id))) ∧
    ((∃ r ∈ db.rows, r.id = q.id) → (SaveQuery db q).2 = none) := by
  constructor
  · intro h
    have hcount : db.rows.countP (fun r => r.id == q.id) = 0 :=
      List.countP_eq_zero.mpr (fun r hr => by simpa using h r hr)
    have hrows : db.rows.map (fun r =>
        if r.id == q.id then saveQueryUpdate q r else r) = db.rows := by
      conv_rhs => rw [← List.map_id db.rows]
      refine List.map_congr_left ?_
      intro r hr
      simp [if_neg (by simpa using h r hr)]
    unfold SaveQuery
    rw [hcount, hrows]
    simp
  · intro ⟨r, hr, hid⟩
    have hcount : db.rows.countP (fun r2 => r2.id == q.id) ≠ 0 := by
      intro h0
      exact absurd hid (by simpa using List.countP_eq_zero.mp h0 r hr)
    unfold SaveQuery
    rw [if_neg hcount]

/-! ### Lemmas about the pack-distribution loop of loadPacksForQueries -/

/-- Distribution never changes the sequence of query names. -/
theorem appendToLastMatch_map_name (n : String) (p : Pack) :
    ∀ qs : List Query,
      (appendToLastMatch qs n p).map (fun q => q.name) = qs.map (fun q => q.name) := by
  intro qs
  induction qs with
  | nil => rfl
  | cons q qs ih =>
    unfold appendToLastMatch
    by_cases h1 : qs.any (fun q2 => q2.name == n)
    · simp [h1, ih]
    · rw [if_neg h1]
      by_cases h2 : q.name == n
      · simp [h2]
      · simp [h2]

/-- Distribution keeps every pack list present. -/
theorem appendToLastMatch_isSome (n : String) (p : Pack) :
    ∀ qs : List Query, (∀ q ∈ qs, q.packs.isSome) →
      ∀ q ∈ appendToLastMatch qs n p, q.packs.isSome := by
  intro qs
  induction qs with
  | nil => intro _ q hq; cases hq
  | cons q0 qs ih =>
    intro h q hq
    unfold appendToLastMatch at hq
    by_cases h1 : qs.any (fun q2 => q2.name == n)
    · rw [if_pos h1] at hq
      rcases List.mem_cons.mp hq with rfl | hq1
      · exact h q (List.mem_cons_self _ _)
      · exact ih (fun q2 h2 => h q2 (List.mem_cons_of_mem _ h2)) q hq1
    · rw [if_neg h1] at hq
      by_cases h2 : q0.name == n
      · rw [if_pos h2] at hq
        rcases List.mem_cons.mp hq with rfl | hq1
        · rfl
        · exact h q (List.mem_cons_of_mem _ hq1)
      · rw [if_neg h2] at hq
        exact h q hq


/-- Distribution for one name leaves lookups of every other name alone. -/
theorem findByName_appendToLastMatch_ne (n m : String) (p : Pack) (hnm : m ≠ n) :
    ∀ qs : List Query, findByName (appendToLastMatch qs n p) m = findByName qs m := by
  intro qs
  induction qs with
  | nil => rfl
  | cons q qs ih =>
    unfold appendToLastMatch
    by_cases h1 : qs.any (fun q2 => q2.name == n)
    · rw [if_pos h1]
      unfold findByName at ih ⊢
      by_cases h2 : q.name == m
      · simp [List.find?, h2]
      · simp only [List.find?, h2]
        exact ih
    · rw [if_neg h1]
      by_cases h2 : q.name == n
      · rw [if_pos h2]
        unfold findByName
        have hq : q.name ≠ m := by
          intro h
          exact hnm (by
            have := eq_of_beq h2
            rw [← this, h])
        have hb1 : (({ q with packs := some ((q.packs.getD []) ++ [p]) } : Query).name == m) = false := by
          simpa using hq
        have hb2 : (q.name == m) = false := by simpa using hq
        simp only [List.find?, hb1, hb2]
      · rw [if_neg h2]

/-- With unique names, distribution for a present name appends the pack to
exactly that query\'s list. -/
theorem findByName_appendToLastMatch_eq (n : String) (p : Pack) :
    ∀ qs : List Query, (qs.map (fun q => q.name)).Nodup →
      ∀ q0, findByName qs n = some q0 →
        findByName (appendToLastMatch qs n p) n =
          some { q0 with packs := some ((q0.packs.getD []) ++ [p]) } := by
  intro qs
  induction qs with
  | nil => intro _ q0 h; cases h
  | cons q qs ih =>
    intro hnd q0 h
    simp only [List.map_cons, List.nodup_cons] at hnd
    unfold appendToLastMatch
    by_cases h2 : q.name == n
    · have hq : q.name = n := eq_of_beq h2
      have h1 : qs.any (fun q2 => q2.name == n) = false := by
        rw [List.any_eq_false]
        intro q2 hq2
        simp only [beq_iff_eq]
        intro he
        exact hnd.1 (by rw [hq, ← he]; exact List.mem_map_of_mem _ hq2)
      rw [if_neg (by simp [h1]), if_pos h2]
      unfold findByName at h ⊢
      simp only [List.find?, h2] at h
      cases h
      simp only [List.find?]
      have : (({ q with packs := some ((q.packs.getD []) ++ [p]) } : Query).name == n) = true := h2
      rw [this]
    · unfold findByName at h
      simp only [List.find?, Bool.of_not_eq_true h2] at h
      have hmem : ∃ q2 ∈ qs, q2.name = n := by
        have hpred := List.find?_some h
        exact ⟨q0, List.mem_of_find?_eq_some h, by simpa using hpred⟩
      have h1 : qs.any (fun q2 => q2.name == n) = true := by
        rw [List.any_eq_true]
        rcases hmem with ⟨q2, hq2, he⟩
        exact ⟨q2, hq2, by simpa using he⟩
      rw [if_pos h1]
      unfold findByName
      simp only [List.find?, Bool.of_not_eq_true h2]
      exact ih hnd.2 q0 h

/-- Distribution for an absent name is the identity. -/
theorem appendToLastMatch_of_none (n : String) (p : Pack) :
    ∀ qs : List Query, findByName qs n = none → appendToLastMatch qs n p = qs := by
  intro qs
  induction qs with
  | nil => intro _; rfl
  | cons q qs ih =>
    intro h
    unfold findByName at h
    rw [List.find?_eq_none] at h
    have hq : (q.name == n) = false := by
      have := h q (List.mem_cons_self _ _)
      simpa using this
    have h1 : qs.any (fun q2 => q2.name == n) = false := by
      rw [List.any_eq_false]
      intro q2 hq2
      exact h q2 (List.mem_cons_of_mem _ hq2)
    unfold appendToLastMatch
    rw [if_neg (by simp [h1]), if_neg (by simp [hq])]

/-- The whole distribution fold, for a name absent from the input. -/
theorem foldl_append_findByName_none :
    ∀ (rows : List (Pack × String)) (qs : List Query) (n : String),
      findByName qs n = none →
      findByName (rows.foldl (fun acc row => appendToLastMatch acc row.2 row.1) qs) n
        = none := by
  intro rows
  induction rows with
  | nil => intro qs n h; exact h
  | cons row rows ih =>
    intro qs n h
    simp only [List.foldl_cons]
    by_cases hr : row.2 = n
    · subst hr
      rw [appendToLastMatch_of_none row.2 row.1 qs h]
      exact ih qs row.2 h
    · refine ih _ n ?_
      rw [findByName_appendToLastMatch_ne row.2 n row.1 (fun he => hr he.symm)]
      exact h

/-- The whole distribution fold, for a present name with unique input
names: the resulting pack list is exactly the packs of the join rows
carrying that name, in join order. -/
theorem foldl_append_findByName :
    ∀ (rows : List (Pack × String)) (qs : List Query),
      (qs.map (fun q => q.name)).Nodup → (∀ q ∈ qs, q.packs.isSome) →
      ∀ n q0, findByName qs n = some q0 →
        findByName (rows.foldl (fun acc row => appendToLastMatch acc row.2 row.1) qs) n =
          some { q0 with packs := some ((q0.packs.getD []) ++
            ((rows.filter (fun row => row.2 == n)).map (fun row => row.1))) } := by
  intro rows
  induction rows with
  | nil =>
    intro qs _ hs n q0 h
    rcases Option.isSome_iff_exists.mp (hs q0 (List.mem_of_find?_eq_some h)) with ⟨l, hl⟩
    simp only [List.foldl_nil, hl, Option.getD_some, List.filter_nil,
      List.map_nil, List.append_nil]
    rw [← hl]
    exact h
  | cons row rows ih =>
    intro qs hnd hs n q0 h
    simp only [List.foldl_cons]
    have hnd1 : ((appendToLastMatch qs row.2 row.1).map (fun q => q.name)).Nodup := by
      rw [appendToLastMatch_map_name]; exact hnd
    have hs1 : ∀ q ∈ appendToLastMatch qs row.2 row.1, q.packs.isSome :=
      appendToLastMatch_isSome row.2 row.1 qs hs
    by_cases hr : row.2 = n
    · subst hr
      have hstep := findByName_appendToLastMatch_eq row.2 row.1 qs hnd q0 h
      have := ih (appendToLastMatch qs row.2 row.1) hnd1 hs1 row.2 _ hstep
      rw [this]
      rcases Option.isSome_iff_exists.mp (hs q0 (List.mem_of_find?_eq_some h)) with ⟨l, hl⟩
      simp [hl, List.filter_cons]
    · have hstep : findByName (appendToLastMatch qs row.2 row.1) n = some q0 := by
        rw [findByName_appendToLastMatch_ne row.2 n row.1 (fun he => hr he.symm)]
        exact h
      have := ih (appendToLastMatch qs row.2 row.1) hnd1 hs1 n q0 hstep
      rw [this]
      have hcond : (row.2 == n) = false := by simpa using hr
      simp [List.filter_cons, hcond]

/-- The distribution fold keeps the sequence of names. -/
theorem foldl_append_map_name :
    ∀ (rows : List (Pack × String)) (qs : List Query),
      (rows.foldl (fun acc row => appendToLastMatch acc row.2 row.1) qs).map
          (fun q => q.name) =
        qs.map (fun q => q.name) := by
  intro rows
  induction rows with
  | nil => intro qs; rfl
  | cons row rows ih =>
    intro qs
    simp only [List.foldl_cons]
    rw [ih, appendToLastMatch_map_name]

/-- The distribution fold keeps every pack list present. -/
theorem foldl_append_isSome :
    ∀ (rows : List (Pack × String)) (qs : List Query),
      (∀ q ∈ qs, q.packs.isSome) →
      ∀ q ∈ rows.foldl (fun acc row => appendToLastMatch acc row.2 row.1) qs,
        q.packs.isSome := by
  intro rows
  induction rows with
  | nil => intro qs h; exact h
  | cons row rows ih =>
    intro qs h
    simp only [List.foldl_cons]
    exact ih _ (appendToLastMatch_isSome row.2 row.1 qs h)

/-- Membership in the join result: a (pack, name) row appears exactly for a
scheduled_queries row linking that pack to that name, with the name among
the requested ones. -/
theorem mem_joinRows (db : QueryDb) (names : List String) (p : Pack) (n : String) :
    (p, n) ∈ joinRows db names ↔
      p ∈ db.packs ∧ n ∈ names ∧
        ∃ sq ∈ db.scheduled, sq.packId = p.id ∧ sq.queryName = n := by
  unfold joinRows
  rw [List.mem_flatMap]
  constructor
  · rintro ⟨p1, hp1, hmem⟩
    rcases List.mem_filterMap.mp hmem with ⟨sq, hsq, hval⟩
    by_cases hc : (sq.packId == p1.id && names.contains sq.queryName) = true
    · rw [if_pos hc] at hval
      rw [Bool.and_eq_true] at hc
      injection hval with hval
      rw [Prod.ext_iff] at hval
      obtain ⟨hpp, hqn⟩ := hval
      simp only at hpp hqn
      have hid : sq.packId = p.id := by rw [← hpp]; simpa using hc.1
      have hcm : sq.queryName ∈ names := by simpa using hc.2
      exact ⟨hpp ▸ hp1, hqn ▸ hcm, sq, hsq, hid, hqn⟩
    · rw [if_neg hc] at hval
      cases hval
  · rintro ⟨hp, hn, sq, hsq, hid, hname⟩
    refine ⟨p, hp, List.mem_filterMap.mpr ⟨sq, hsq, ?_⟩⟩
    have hc : (sq.packId == p.id && names.contains sq.queryName) = true := by
      rw [Bool.and_eq_true]
      refine ⟨by simpa using hid, by simpa using hname ▸ hn⟩
    rw [if_pos hc, hname]

/-- C9: `loadPacksForQueries` returns at once without a join for an empty
input; for a non-empty input one join runs over exactly the input names;
every query ends with a present pack list; and with unique input names the
join's result rows are distributed back to the matching queries — in
particular a query no pack schedules ends with the present-but-empty
list. -/
theorem loadPacksForQueries_spec (db : QueryDb) (queries : List Query) :
    loadPacksForQueries db ([] : List Query) = ([], false) ∧
    (queries ≠ [] → (loadPacksForQueries db queries).2 = true) ∧
    (∀ row ∈ joinRows db (queries.map (fun q => q.name)),
       row.2 ∈ queries.map (fun q => q.name)) ∧
    (∀ q1 ∈ (loadPacksForQueries db queries).1, q1.packs.isSome) ∧
    ((queries.map (fun q => q.name)).Nodup →
      ((loadPacksForQueries db queries).1.map (fun q => q.name) =
          queries.map (fun q => q.name)) ∧
      (∀ q1 ∈ (loadPacksForQueries db queries).1,
        q1.packs = some (((joinRows db (queries.map (fun q => q.name))).filter
            (fun row => row.2 == q1.name)).map (fun row => row.1))) ∧
      (∀ q1 ∈ (loadPacksForQueries db queries).1,
        (¬ ∃ sq ∈ db.scheduled, sq.queryName = q1.name ∧
            ∃ p ∈ db.packs, sq.packId = p.id) → q1.packs = some [])) := by
  by_cases hemp : queries = []
  · subst hemp
    refine ⟨rfl, fun h => absurd rfl h, ?_, ?_, ?_⟩
    · intro row hrow
      obtain ⟨p, n⟩ := row
      exact ((mem_joinRows db _ p n).mp hrow).2.1
    · intro q1 hq1
      simp [loadPacksForQueries] at hq1
    · intro _
      refine ⟨rfl, ?_, ?_⟩ <;> intro q1 hq1 <;> simp [loadPacksForQueries] at hq1
  · have hne : queries.isEmpty = false := by
      simpa [List.isEmpty_iff] using hemp
    have hres : loadPacksForQueries db queries =
        ((joinRows db (queries.map (fun q => q.name))).foldl
          (fun qs row => appendToLastMatch qs row.2 row.1)
          (queries.map (fun q => { q with packs := some ([] : List Pack) })), true) := by
      unfold loadPacksForQueries
      rw [hne]
      simp
    have hclear_names : (queries.map (fun q =>
          { q with packs := some ([] : List Pack) })).map (fun q => q.name) =
        queries.map (fun q => q.name) := by
      rw [List.map_map]
      rfl
    have hclear_some : ∀ q1 ∈ queries.map (fun q =>
        { q with packs := some ([] : List Pack) }), q1.packs.isSome := by
      intro q1 hq1
      rcases List.mem_map.mp hq1 with ⟨q0, _, rfl⟩
      rfl
    refine ⟨rfl, fun _ => by rw [hres], ?_, ?_, ?_⟩
    · intro row hrow
      obtain ⟨p, n⟩ := row
      exact ((mem_joinRows db _ p n).mp hrow).2.1
    · intro q1 hq1
      rw [hres] at hq1
      exact foldl_append_isSome _ _ hclear_some q1 hq1
    · intro hnd
      have hnd1 : ((queries.map (fun q =>
          { q with packs := some ([] : List Pack) })).map (fun q => q.name)).Nodup := by
        rw [hclear_names]; exact hnd
      have hmapname : (loadPacksForQueries db queries).1.map (fun q => q.name) =
          queries.map (fun q => q.name) := by
        rw [hres]
        simp only
        rw [foldl_append_map_name, hclear_names]
      have hnd2 : ((loadPacksForQueries db queries).1.map (fun q => q.name)).Nodup := by
        rw [hmapname]; exact hnd
      have hdist : ∀ q1 ∈ (loadPacksForQueries db queries).1,
          q1.packs = some (((joinRows db (queries.map (fun q => q.name))).filter
            (fun row => row.2 == q1.name)).map (fun row => row.1)) := by
        intro q1 hq1
        have hfind_res : findByName (loadPacksForQueries db queries).1 q1.name = some q1 := by
          have hk := find_key_unique (fun q : Query => q.name)
            (loadPacksForQueries db queries).1 hnd2 q1 hq1
          simpa [findByName] using hk
        have hmem_name : q1.name ∈ (queries.map (fun q =>
            { q with packs := some ([] : List Pack) })).map (fun q => q.name) := by
          rw [hclear_names, ← hmapname]
          exact List.mem_map_of_mem _ hq1
        have hsome : (findByName (queries.map (fun q =>
            { q with packs := some ([] : List Pack) })) q1.name).isSome := by
          unfold findByName
          rw [List.find?_isSome]
          rcases List.mem_map.mp hmem_name with ⟨q0, hq0, he⟩
          exact ⟨q0, hq0, by simpa using he⟩
        rcases Option.isSome_iff_exists.mp hsome with ⟨q0, hq0⟩
        have hq0packs : q0.packs = some [] := by
          rcases List.mem_map.mp (List.mem_of_find?_eq_some hq0) with ⟨q2, _, rfl⟩
          rfl
        have hfold := foldl_append_findByName
          (joinRows db (queries.map (fun q => q.name)))
          (queries.map (fun q => { q with packs := some ([] : List Pack) }))
          hnd1 hclear_some q1.name q0 hq0
        have hfind_res2 : findByName (loadPacksForQueries db queries).1 q1.name =
            some { q0 with packs := some ((q0.packs.getD []) ++
              (((joinRows db (queries.map (fun q => q.name))).filter
                (fun row => row.2 == q1.name)).map (fun row => row.1))) } := by
          rw [hres]
          exact hfold
        rw [hfind_res] at hfind_res2
        injection hfind_res2 with hq1eq
        conv_lhs => rw [hq1eq]
        simp [hq0packs]
      refine ⟨hmapname, hdist, ?_⟩
      intro q1 hq1 hnone
      rw [hdist q1 hq1]
      have hfilter : (joinRows db (queries.map (fun q => q.name))).filter
          (fun row => row.2 == q1.name) = [] := by
        rw [List.filter_eq_nil_iff]
        intro row hrow
        obtain ⟨p, n⟩ := row
        simp only [beq_iff_eq]
        intro he
        rcases (mem_joinRows db _ p n).mp hrow with ⟨hp, -, sq, hsq, hid, hqn⟩
        exact hnone ⟨sq, hsq, by rw [hqn, he], p, hp, hid⟩
      rw [hfilter]
      rfl

/-- C4: `ListPacksForHost` returns exactly the non-disabled packs with at
least one satisfied targeting criterion — a targeted label with a recorded
true result for the host, the host directly targeted, or the host's team
targeted; an absent (unknown) label result never counts, disabled packs
are always excluded, and with distinct pack rows each qualifying pack
appears exactly once. -/
theorem ListPacksForHost_membership (db : FleetDb) (h : Nat) :
    (∀ p : PackRow, p ∈ ListPacksForHost db h ↔
      p ∈ db.packs ∧ p.disabled = false ∧
        ((∃ t ∈ db.labelPackTargets, t.1 = p.id ∧ labelResult db h t.2 = some true) ∨
         (∃ t ∈ db.hostPackTargets, t.1 = p.id ∧ t.2 = h) ∨
         (∃ t ∈ db.teamPackTargets, t.1 = p.id ∧ hostTeam db h = some t.2))) ∧
    (db.packs.Nodup → ∀ p ∈ ListPacksForHost db h, (ListPacksForHost db h).count p = 1) := by
  constructor
  · intro p
    unfold ListPacksForHost packAppliesToHost
    rw [List.mem_filter]
    constructor
    · rintro ⟨hp, hcond⟩
      rw [Bool.and_eq_true, Bool.or_eq_true, Bool.or_eq_true] at hcond
      obtain ⟨hdis, hcrit⟩ := hcond
      refine ⟨hp, by simpa using hdis, ?_⟩
      rcases hcrit with (hlab | hhost) | hteam
      · left
        rcases List.any_eq_true.mp hlab with ⟨t, ht, hcond2⟩
        rw [Bool.and_eq_true] at hcond2
        exact ⟨t, ht, by simpa using hcond2.1, by simpa using hcond2.2⟩
      · right; left
        rcases List.any_eq_true.mp hhost with ⟨t, ht, hcond2⟩
        rw [Bool.and_eq_true] at hcond2
        exact ⟨t, ht, by simpa using hcond2.1, by simpa using hcond2.2⟩
      · right; right
        rcases List.any_eq_true.mp hteam with ⟨t, ht, hcond2⟩
        rw [Bool.and_eq_true] at hcond2
        refine ⟨t, ht, by simpa using hcond2.1, ?_⟩
        rcases hht : hostTeam db h with _ | tm
        · rw [hht] at hcond2
          cases hcond2.2
        · rw [hht] at hcond2
          have : t.2 = tm := by simpa using hcond2.2
          rw [this]
    · rintro ⟨hp, hdis, hcrit⟩
      refine ⟨hp, ?_⟩
      rw [Bool.and_eq_true, Bool.or_eq_true, Bool.or_eq_true]
      refine ⟨by simpa using hdis, ?_⟩
      rcases hcrit with ⟨t, ht, hid, hres⟩ | ⟨t, ht, hid, hh⟩ | ⟨t, ht, hid, hteam⟩
      · left; left
        rw [List.any_eq_true]
        exact ⟨t, ht, by rw [Bool.and_eq_true]
                         exact ⟨by simpa using hid, by simpa using hres⟩⟩
      · left; right
        rw [List.any_eq_true]
        exact ⟨t, ht, by rw [Bool.and_eq_true]
                         exact ⟨by simpa using hid, by simpa using hh⟩⟩
      · right
        rw [List.any_eq_true]
        refine ⟨t, ht, ?_⟩
        rw [Bool.and_eq_true]
        refine ⟨by simpa using hid, ?_⟩
        rw [hteam]
        simp
  · intro hnd p hp
    have hnd1 : (ListPacksForHost db h).Nodup := List.Nodup.filter _ hnd
    exact List.count_eq_one_of_mem hnd1 hp

/-! ### Lemmas about resolution and the reconciler -/

/-- When every element maps to a success, `mapME` succeeds and relates
inputs to outputs elementwise. -/
theorem mapME_ok {α β : Type} {f : α → Except StoreError β} :
    ∀ (l : List α), (∀ a ∈ l, ∃ b, f a = .ok b) →
      ∃ bs, mapME f l = .ok bs ∧ List.Forall₂ (fun a b => f a = .ok b) l bs := by
  intro l
  induction l with
  | nil => exact fun _ => ⟨[], rfl, List.Forall₂.nil⟩
  | cons a as ih =>
    intro h
    rcases h a (List.mem_cons_self _ _) with ⟨b, hb⟩
    rcases ih (fun a2 h2 => h a2 (List.mem_cons_of_mem _ h2)) with ⟨bs, hbs, hrel⟩
    refine ⟨b :: bs, ?_, List.Forall₂.cons hb hrel⟩
    unfold mapME
    rw [hb, hbs]

/-- An elementwise-inverted `Forall₂` turns a `filterMap` back into the
original list. -/
theorem forall2_filterMap {α β : Type} {R : α → β → Prop} {f : β → Option α} :
    ∀ {as : List α} {bs : List β}, List.Forall₂ R as bs →
      (∀ a b, R a b → f b = some a) → bs.filterMap f = as := by
  intro as bs h hf
  induction h with
  | nil => rfl
  | @cons a b as2 bs2 hab htail ih =>
    rw [List.filterMap_cons, hf a b hab, ih]

/-- A `Forall₂` with pointwise-matching images turns a map of the right
list into a map of the left one. -/
theorem forall2_map {α β γ : Type} {R : α → β → Prop} {f : β → γ} {g : α → γ} :
    ∀ {as : List α} {bs : List β}, List.Forall₂ R as bs →
      (∀ a b, R a b → f b = g a) → bs.map f = as.map g := by
  intro as bs h hf
  induction h with
  | nil => rfl
  | @cons a b as2 bs2 hab htail ih =>
    rw [List.map_cons, List.map_cons, hf a b hab, ih]

/-- Right components of a `Forall₂` come from related left components. -/
theorem forall2_right_mem {α β : Type} {R : α → β → Prop} :
    ∀ {as : List α} {bs : List β}, List.Forall₂ R as bs →
      ∀ b ∈ bs, ∃ a ∈ as, R a b := by
  intro as bs h
  induction h with
  | nil => intro b hb; cases hb
  | @cons a b2 as2 bs2 hab htail ih =>
    intro b hb
    rcases List.mem_cons.mp hb with rfl | hb2
    · exact ⟨a, List.mem_cons_self _ _, hab⟩
    · rcases ih b hb2 with ⟨a2, ha2, hr⟩
      exact ⟨a2, List.mem_cons_of_mem _ ha2, hr⟩

/-- What a successful label resolution means. -/
theorem resolveLabel_ok {db : FleetDb} {n : String} {i : Nat} :
    resolveLabel db n = .ok i → ∃ l, findLabelByName db n = some l ∧ i = l.1 := by
  unfold resolveLabel
  cases h : findLabelByName db n with
  | none => intro he; cases he
  | some l =>
    intro he
    injection he with he
    exact ⟨l, rfl, he.symm⟩

/-- What a successful team resolution means. -/
theorem resolveTeam_ok {db : FleetDb} {n : String} {i : Nat} :
    resolveTeam db n = .ok i → ∃ t, findTeamByName db n = some t ∧ i = t.id := by
  unfold resolveTeam
  cases h : findTeamByName db n with
  | none => intro he; cases he
  | some t =>
    intro he
    injection he with he
    exact ⟨t, rfl, he.symm⟩

/-- What a successful entry resolution means. -/
theorem resolveEntry_ok {db : FleetDb} {pid : Nat} {e : PackSpecQuery}
    {en : ScheduledEntry} :
    resolveEntry db pid e = .ok en →
      ∃ q, savedQueryNamed db e.queryName = some q ∧ en = buildEntry pid e q := by
  unfold resolveEntry
  cases h : savedQueryNamed db e.queryName with
  | none => intro he; cases he
  | some q =>
    intro he
    injection he with he
    exact ⟨q, rfl, he.symm⟩

/-- A resolved entry is bound to the pack it was resolved for. -/
theorem resolveEntry_ok_packId {db : FleetDb} {pid : Nat} {e : PackSpecQuery}
    {en : ScheduledEntry} (h : resolveEntry db pid e = .ok en) : en.packId = pid := by
  rcases resolveEntry_ok h with ⟨q, -, rfl⟩
  rfl

/-- A label found by name is found again by its identifier, with the same
name, when label identifiers are unique. -/
theorem label_roundtrip {db : FleetDb} (hd : (db.labels.map Prod.fst).Nodup)
    {n : String} {l : Nat × String} (h : findLabelByName db n = some l) :
    findLabelById db l.1 = some l ∧ l.2 = n := by
  have hmem := List.mem_of_find?_eq_some h
  have hpred := List.find?_some h
  constructor
  · have hk := find_key_unique (fun x : Nat × String => x.1) db.labels hd l hmem
    simpa [findLabelById] using hk
  · simpa using hpred

/-- A team found by name is found again by its identifier, with the same
name, when team identifiers are unique. -/
theorem team_roundtrip {db : FleetDb} (hd : (db.teams.map Team.id).Nodup)
    {n : String} {t : Team} (h : findTeamByName db n = some t) :
    findTeamById db t.id = some t ∧ t.name = n := by
  have hmem := List.mem_of_find?_eq_some h
  have hpred := List.find?_some h
  constructor
  · have hk := find_key_unique (fun x : Team => x.id) db.teams hd t hmem
    simpa [findTeamById] using hk
  · simpa using hpred

/-- A saved query found by name is found again by its identifier, with the
same name, when query identifiers are unique. -/
theorem query_roundtrip {db : FleetDb} (hd : (db.queries.map QueryRow.id).Nodup)
    {n : String} {q : QueryRow} (h : savedQueryNamed db n = some q) :
    findQueryById db q.id = some q ∧ q.name = n ∧ q.saved = true := by
  have hmem := List.mem_of_find?_eq_some h
  have hpred := List.find?_some h
  rw [Bool.and_eq_true] at hpred
  refine ⟨?_, by simpa using hpred.2, hpred.1⟩
  have hk := find_key_unique (fun x : QueryRow => x.id) db.queries hd q hmem
  simpa [findQueryById] using hk

/-- Identifier lookups in the label directory depend only on the labels. -/
theorem findLabelById_congr {db1 db : FleetDb} (h : db1.labels = db.labels) :
    findLabelById db1 = findLabelById db := by
  funext i
  unfold findLabelById
  rw [h]

/-- Identifier lookups in the team directory depend only on the teams. -/
theorem findTeamById_congr {db1 db : FleetDb} (h : db1.teams = db.teams) :
    findTeamById db1 = findTeamById db := by
  funext i
  unfold findTeamById
  rw [h]

/-- Identifier lookups in the queries table depend only on the queries. -/
theorem findQueryById_congr {db1 db : FleetDb} (h : db1.queries = db.queries) :
    findQueryById db1 = findQueryById db := by
  funext i
  unfold findQueryById
  rw [h]

/-- Name lookups in the label directory depend only on the labels. -/
theorem findLabelByName_congr {db1 db : FleetDb} (h : db1.labels = db.labels)
    (n : String) : findLabelByName db1 n = findLabelByName db n := by
  unfold findLabelByName
  rw [h]

/-- Name lookups in the team directory depend only on the teams. -/
theorem findTeamByName_congr {db1 db : FleetDb} (h : db1.teams = db.teams)
    (n : String) : findTeamByName db1 n = findTeamByName db n := by
  unfold findTeamByName
  rw [h]

/-- Saved-query lookups depend only on the queries table. -/
theorem savedQueryNamed_congr {db1 db : FleetDb} (h : db1.queries = db.queries)
    (n : String) : savedQueryNamed db1 n = savedQueryNamed db n := by
  unfold savedQueryNamed
  rw [h]

/-- Reading back a pack is unaffected by rows appended for other packs. -/
theorem specOfPack_frame {db1 db : FleetDb} (p : PackRow)
    (hq : db1.queries = db.queries) (hl : db1.labels = db.labels)
    (ht : db1.teams = db.teams)
    (he : ∃ newE, db1.entries = db.entries ++ newE ∧ ∀ e ∈ newE, e.packId ≠ p.id)
    (hlt : ∃ newT, db1.labelPackTargets = db.labelPackTargets ++ newT ∧
      ∀ t ∈ newT, t.1 ≠ p.id)
    (htt : ∃ newT, db1.teamPackTargets = db.teamPackTargets ++ newT ∧
      ∀ t ∈ newT, t.1 ≠ p.id)
    (hht : ∃ newT, db1.hostPackTargets = db.hostPackTargets ++ newT ∧
      ∀ t ∈ newT, t.1 ≠ p.id) :
    specOfPack db1 p = specOfPack db p := by
  rcases he with ⟨newE, heq, hene⟩
  rcases hlt with ⟨newL, hleq, hlne⟩
  rcases htt with ⟨newT, hteq, htne⟩
  rcases hht with ⟨newH, hheq, hhne⟩
  have h1 : newE.filter (fun e => e.packId == p.id) = [] :=
    List.filter_eq_nil_iff.mpr (fun e hee => by simpa using hene e hee)
  have h2 : newL.filter (fun t => t.1 == p.id) = [] :=
    List.filter_eq_nil_iff.mpr (fun t ht2 => by simpa using hlne t ht2)
  have h3 : newT.filter (fun t => t.1 == p.id) = [] :=
    List.filter_eq_nil_iff.mpr (fun t ht2 => by simpa using htne t ht2)
  have h4 : newH.filter (fun t => t.1 == p.id) = [] :=
    List.filter_eq_nil_iff.mpr (fun t ht2 => by simpa using hhne t ht2)
  unfold specOfPack
  rw [findLabelById_congr hl, findTeamById_congr ht, findQueryById_congr hq,
    heq, hleq, hteq, hheq, List.filter_append, List.filter_append,
    List.filter_append, List.filter_append, h1, h2, h3, h4]
  simp

/-- Reading back the pack row just written for a spec yields the spec with
entry display names defaulted. -/
theorem specOfPack_new {db db1 : FleetDb} (s : PackSpec)
    (labelIds teamIds : List Nat) (newEntries : List ScheduledEntry) (pid : Nat)
    (hdL : (db.labels.map Prod.fst).Nodup) (hdT : (db.teams.map Team.id).Nodup)
    (hdQ : (db.queries.map QueryRow.id).Nodup)
    (hbe : ∀ e ∈ db.entries, e.packId ≠ pid)
    (hbl : ∀ t ∈ db.labelPackTargets, t.1 ≠ pid)
    (hbt : ∀ t ∈ db.teamPackTargets, t.1 ≠ pid)
    (hbh : ∀ t ∈ db.hostPackTargets, t.1 ≠ pid)
    (hLrel : List.Forall₂ (fun n i => resolveLabel db n = .ok i) s.targets.labels labelIds)
    (hTrel : List.Forall₂ (fun n i => resolveTeam db n = .ok i) s.targets.teams teamIds)
    (hQrel : List.Forall₂ (fun e en => resolveEntry db pid e = .ok en) s.queries newEntries)
    (hq1 : db1.queries = db.queries) (hl1 : db1.labels = db.labels)
    (ht1 : db1.teams = db.teams)
    (he1 : db1.entries = db.entries ++ newEntries)
    (hlt1 : db1.labelPackTargets = db.labelPackTargets ++
      labelIds.map (fun l => (pid, l)))
    (htt1 : db1.teamPackTargets = db.teamPackTargets ++
      teamIds.map (fun tm => (pid, tm)))
    (hht1 : db1.hostPackTargets = db.hostPackTargets ++
      s.targets.hosts.map (fun h2 => (pid, h2)))
    (p : PackRow) (hpid : p.id = pid) (hpname : p.name = s.name)
    (hpdis : p.disabled = s.disabled) :
    specOfPack db1 p = normalizeSpec s := by
  have h1 : db.entries.filter (fun e => e.packId == p.id) = [] :=
    List.filter_eq_nil_iff.mpr (fun e he => by simpa [hpid] using hbe e he)
  have h2 : db.labelPackTargets.filter (fun t => t.1 == p.id) = [] :=
    List.filter_eq_nil_iff.mpr (fun t ht => by simpa [hpid] using hbl t ht)
  have h3 : db.teamPackTargets.filter (fun t => t.1 == p.id) = [] :=
    List.filter_eq_nil_iff.mpr (fun t ht => by simpa [hpid] using hbt t ht)
  have h4 : db.hostPackTargets.filter (fun t => t.1 == p.id) = [] :=
    List.filter_eq_nil_iff.mpr (fun t ht => by simpa [hpid] using hbh t ht)
  have k1 : newEntries.filter (fun e => e.packId == p.id) = newEntries := by
    rw [List.filter_eq_self]
    intro e he
    rcases forall2_right_mem hQrel e he with ⟨a, -, hr⟩
    simp [resolveEntry_ok_packId hr, hpid]
  have k2 : (labelIds.map (fun l => (pid, l))).filter (fun t => t.1 == p.id) =
      labelIds.map (fun l => (pid, l)) := by
    rw [List.filter_eq_self]
    intro t ht
    rcases List.mem_map.mp ht with ⟨l, -, rfl⟩
    simp [hpid]
  have k3 : (teamIds.map (fun tm => (pid, tm))).filter (fun t => t.1 == p.id) =
      teamIds.map (fun tm => (pid, tm)) := by
    rw [List.filter_eq_self]
    intro t ht
    rcases List.mem_map.mp ht with ⟨tm, -, rfl⟩
    simp [hpid]
  have k4 : (s.targets.hosts.map (fun h2 => (pid, h2))).filter
      (fun t => t.1 == p.id) = s.targets.hosts.map (fun h2 => (pid, h2)) := by
    rw [List.filter_eq_self]
    intro t ht
    rcases List.mem_map.mp ht with ⟨h2, -, rfl⟩
    simp [hpid]
  have hlabels : (labelIds.map (fun l => (pid, l))).filterMap
      (fun t => (findLabelById db t.2).map (fun l => l.2)) = s.targets.labels := by
    rw [List.filterMap_map]
    refine forall2_filterMap hLrel ?_
    intro n i hr
    rcases resolveLabel_ok hr with ⟨l, hfind, rfl⟩
    rcases label_roundtrip hdL hfind with ⟨hfid, hname2⟩
    simp [Function.comp, hfid, hname2]
  have hteams : (teamIds.map (fun tm => (pid, tm))).filterMap
      (fun t => (findTeamById db t.2).map (fun tm => tm.name)) = s.targets.teams := by
    rw [List.filterMap_map]
    refine forall2_filterMap hTrel ?_
    intro n i hr
    rcases resolveTeam_ok hr with ⟨t, hfind, rfl⟩
    rcases team_roundtrip hdT hfind with ⟨hfid, hname2⟩
    simp [Function.comp, hfid, hname2]
  have hhosts : (s.targets.hosts.map (fun h2 => (pid, h2))).map (fun t => t.2) =
      s.targets.hosts := by
    rw [List.map_map]
    simp [Function.comp]
  have hqueries : newEntries.map (fun e =>
      ({ queryName := ((findQueryById db e.queryId).map (fun q => q.name)).getD "",
         name := e.name, description := e.description, interval := e.interval,
         snapshot := e.snapshot, removed := e.removed, platform := e.platform,
         version := e.version, shard := e.shard,
         denylist := e.denylist } : PackSpecQuery)) =
      s.queries.map normalizeEntry := by
    refine forall2_map hQrel ?_
    intro e en hr
    rcases resolveEntry_ok hr with ⟨q, hsq, rfl⟩
    rcases query_roundtrip hdQ hsq with ⟨hfq, hname2, -⟩
    simp [buildEntry, normalizeEntry, hfq, hname2]
  unfold specOfPack normalizeSpec
  rw [findLabelById_congr hl1, findTeamById_congr ht1, findQueryById_congr hq1,
    he1, hlt1, htt1, hht1, List.filter_append, List.filter_append,
    List.filter_append, List.filter_append, h1, h2, h3, h4, k1, k2, k3, k4,
    List.nil_append, List.nil_append, List.nil_append, List.nil_append,
    hlabels, hteams, hhosts, hqueries, hpname, hpdis]

/-- Applying one fully resolvable spec whose name is fresh: the pack row is
created with the next identifier, the directories are untouched, the id
invariant is kept, and the read-back projection grows by exactly the
normalized spec. -/
theorem applyOne_insert (db : FleetDb) (s : PackSpec)
    (hd : dirGood db) (hb : stateBounded db) (hres : specResolvable db s)
    (hfresh : ∀ p ∈ db.packs, p.name ≠ s.name) :
    ∃ db1, applyOnePackSpec db s = .ok db1 ∧
      db1.queries = db.queries ∧ db1.labels = db.labels ∧ db1.teams = db.teams ∧
      db1.hosts = db.hosts ∧
      db1.nextPackId = db.nextPackId + 1 ∧
      db1.packs = db.packs ++ [insertedPack db s] ∧
      stateBounded db1 ∧
      GetPackSpecs db1 = GetPackSpecs db ++ [normalizeSpec s] := by
  obtain ⟨hdL, hdT, hdQ⟩ := hd
  obtain ⟨hbp, hbe, hbl, hbt, hbh⟩ := hb
  obtain ⟨hresL, hresT, hresQ⟩ := hres
  have hfind : db.packs.find? (fun p => p.name == s.name) = none := by
    rw [List.find?_eq_none]
    intro p hp
    simpa using hfresh p hp
  have hup : upsertPackRow db s = (dbAfterInsert db s, db.nextPackId) := by
    unfold upsertPackRow
    rw [hfind]
    rfl
  have hL : ∀ n ∈ s.targets.labels, ∃ i, resolveLabel db n = .ok i := by
    intro n hn
    rcases Option.isSome_iff_exists.mp (hresL n hn) with ⟨l, hl⟩
    refine ⟨l.1, ?_⟩
    unfold resolveLabel
    rw [hl]
  have hT : ∀ n ∈ s.targets.teams, ∃ i, resolveTeam db n = .ok i := by
    intro n hn
    rcases Option.isSome_iff_exists.mp (hresT n hn) with ⟨t, ht⟩
    refine ⟨t.id, ?_⟩
    unfold resolveTeam
    rw [ht]
  have hQ : ∀ e ∈ s.queries, ∃ en, resolveEntry db db.nextPackId e = .ok en := by
    intro e he
    rcases Option.isSome_iff_exists.mp (hresQ e he) with ⟨q, hq⟩
    refine ⟨buildEntry db.nextPackId e q, ?_⟩
    unfold resolveEntry
    rw [hq]
  rcases mapME_ok s.targets.labels hL with ⟨labelIds, hLok, hLrel⟩
  rcases mapME_ok s.targets.teams hT with ⟨teamIds, hTok, hTrel⟩
  rcases mapME_ok s.queries hQ with ⟨newEntries, hQok, hQrel⟩
  have hQok2 : mapME (resolveEntry (dbAfterInsert db s) db.nextPackId) s.queries =
      .ok newEntries := hQok
  have happly : applyOnePackSpec db s = .ok (replacePack (dbAfterInsert db s)
      db.nextPackId labelIds teamIds s.targets.hosts newEntries) := by
    unfold applyOnePackSpec
    rw [hLok, hTok, hup]
    simp [hQok2]
  have hfe : (dbAfterInsert db s).entries.filter
      (fun e => !(e.packId == db.nextPackId)) = db.entries := by
    show db.entries.filter (fun e => !(e.packId == db.nextPackId)) = db.entries
    rw [List.filter_eq_self]
    intro e he
    simpa using Nat.ne_of_lt (hbe e he)
  have hfl : (dbAfterInsert db s).labelPackTargets.filter
      (fun t => !(t.1 == db.nextPackId)) = db.labelPackTargets := by
    show db.labelPackTargets.filter (fun t => !(t.1 == db.nextPackId)) =
      db.labelPackTargets
    rw [List.filter_eq_self]
    intro t ht
    simpa using Nat.ne_of_lt (hbl t ht)
  have hft : (dbAfterInsert db s).teamPackTargets.filter
      (fun t => !(t.1 == db.nextPackId)) = db.teamPackTargets := by
    show db.teamPackTargets.filter (fun t => !(t.1 == db.nextPackId)) =
      db.teamPackTargets
    rw [List.filter_eq_self]
    intro t ht
    simpa using Nat.ne_of_lt (hbt t ht)
  have hfh : (dbAfterInsert db s).hostPackTargets.filter
      (fun t => !(t.1 == db.nextPackId)) = db.hostPackTargets := by
    show db.hostPackTargets.filter (fun t => !(t.1 == db.nextPackId)) =
      db.hostPackTargets
    rw [List.filter_eq_self]
    intro t ht
    simpa using Nat.ne_of_lt (hbh t ht)
  have hdb1 : replacePack (dbAfterInsert db s) db.nextPackId labelIds teamIds
      s.targets.hosts newEntries = dbAfterApply db s labelIds teamIds newEntries := by
    unfold replacePack dbAfterApply
    rw [hfe, hfl, hft, hfh]
  rw [hdb1] at happly
  have hpacks1 : (dbAfterApply db s labelIds teamIds newEntries).packs =
      db.packs ++ [insertedPack db s] := rfl
  have hnew_pid : ∀ e ∈ newEntries, e.packId = db.nextPackId := by
    intro e he
    rcases forall2_right_mem hQrel e he with ⟨a, -, hr⟩
    exact resolveEntry_ok_packId hr
  refine ⟨_, happly, rfl, rfl, rfl, rfl, rfl, hpacks1, ?_, ?_⟩
  · refine ⟨?_, ?_, ?_, ?_, ?_⟩
    · intro p hp
      have hp2 : p ∈ db.packs ++ [insertedPack db s] := hp
      rcases List.mem_append.mp hp2 with h | h
      · exact Nat.lt_succ_of_lt (hbp p h)
      · rcases List.mem_singleton.mp h with rfl
        exact Nat.lt_succ_self _
    · intro e he
      have he2 : e ∈ db.entries ++ newEntries := he
      rcases List.mem_append.mp he2 with h | h
      · exact Nat.lt_succ_of_lt (hbe e h)
      · rw [hnew_pid e h]
        exact Nat.lt_succ_self _
    · intro t ht
      have ht2 : t ∈ db.labelPackTargets ++ labelIds.map (fun l => (db.nextPackId, l)) := ht
      rcases List.mem_append.mp ht2 with h | h
      · exact Nat.lt_succ_of_lt (hbl t h)
      · rcases List.mem_map.mp h with ⟨l, -, rfl⟩
        exact Nat.lt_succ_self _
    · intro t ht
      have ht2 : t ∈ db.teamPackTargets ++ teamIds.map (fun tm => (db.nextPackId, tm)) := ht
      rcases List.mem_append.mp ht2 with h | h
      · exact Nat.lt_succ_of_lt (hbt t h)
      · rcases List.mem_map.mp h with ⟨tm, -, rfl⟩
        exact Nat.lt_succ_self _
    · intro t ht
      have ht2 : t ∈ db.hostPackTargets ++
          s.targets.hosts.map (fun h2 => (db.nextPackId, h2)) := ht
      rcases List.mem_append.mp ht2 with h | h
      · exact Nat.lt_succ_of_lt (hbh t h)
      · rcases List.mem_map.mp h with ⟨h2, -, rfl⟩
        exact Nat.lt_succ_self _
  · show (dbAfterApply db s labelIds teamIds newEntries).packs.map
        (specOfPack (dbAfterApply db s labelIds teamIds newEntries)) =
      GetPackSpecs db ++ [normalizeSpec s]
    rw [hpacks1, List.map_append, List.map_singleton]
    congr 1
    · refine List.map_congr_left ?_
      intro p hp
      refine specOfPack_frame p rfl rfl rfl ?_ ?_ ?_ ?_
      · refine ⟨newEntries, rfl, ?_⟩
        intro e he
        rw [hnew_pid e he]
        exact (Nat.ne_of_lt (hbp p hp)).symm
      · refine ⟨labelIds.map (fun l => (db.nextPackId, l)), rfl, ?_⟩
        intro t ht
        rcases List.mem_map.mp ht with ⟨l, -, rfl⟩
        exact (Nat.ne_of_lt (hbp p hp)).symm
      · refine ⟨teamIds.map (fun tm => (db.nextPackId, tm)), rfl, ?_⟩
        intro t ht
        rcases List.mem_map.mp ht with ⟨tm, -, rfl⟩
        exact (Nat.ne_of_lt (hbp p hp)).symm
      · refine ⟨s.targets.hosts.map (fun h2 => (db.nextPackId, h2)), rfl, ?_⟩
        intro t ht
        rcases List.mem_map.mp ht with ⟨h2, -, rfl⟩
        exact (Nat.ne_of_lt (hbp p hp)).symm
    · rw [List.cons_eq_cons]
      refine ⟨?_, rfl⟩
      exact @specOfPack_new db (dbAfterApply db s labelIds teamIds newEntries)
        s labelIds teamIds newEntries db.nextPackId
        hdL hdT hdQ
        (fun e he => Nat.ne_of_lt (hbe e he))
        (fun t ht => Nat.ne_of_lt (hbl t ht))
        (fun t ht => Nat.ne_of_lt (hbt t ht))
        (fun t ht => Nat.ne_of_lt (hbh t ht))
        hLrel hTrel hQrel rfl rfl rfl rfl rfl rfl rfl
        (insertedPack db s) rfl rfl rfl

/-- Applying a batch of resolvable specs with fresh, pairwise-distinct
names succeeds and extends the read-back projection by the normalized
specs, in order, leaving the directories untouched. -/
theorem applyLoop_roundtrip :
    ∀ (specs : List PackSpec) (db : FleetDb),
      dirGood db → stateBounded db →
      (∀ s ∈ specs, specResolvable db s) →
      ((db.packs.map PackRow.name ++ specs.map PackSpec.name).Nodup) →
      ∃ db1, applyPackSpecsLoop db specs = .ok db1 ∧
        db1.queries = db.queries ∧ db1.labels = db.labels ∧
        db1.teams = db.teams ∧
        db1.packs.map PackRow.name =
          db.packs.map PackRow.name ++ specs.map PackSpec.name ∧
        GetPackSpecs db1 = GetPackSpecs db ++ specs.map normalizeSpec := by
  intro specs
  induction specs with
  | nil =>
    intro db _ _ _ _
    exact ⟨db, rfl, rfl, rfl, rfl, by simp, by simp⟩
  | cons s rest ih =>
    intro db hd hb hres hnames
    have hnd := hnames
    rw [List.nodup_append] at hnd
    have hfresh : ∀ p ∈ db.packs, p.name ≠ s.name := by
      intro p hp he
      exact (hnd.2.2 (List.mem_map_of_mem _ hp))
        (by rw [he]; exact List.mem_cons_self _ _)
    rcases applyOne_insert db s hd hb (hres s (List.mem_cons_self _ _)) hfresh with
      ⟨db1, happ, hq1, hl1, ht1, hh1, hnp1, hp1, hb1, hg1⟩
    obtain ⟨hdL, hdT, hdQ⟩ := hd
    have hd1 : dirGood db1 := by
      refine ⟨?_, ?_, ?_⟩
      · rw [hl1]; exact hdL
      · rw [ht1]; exact hdT
      · rw [hq1]; exact hdQ
    have hres1 : ∀ s2 ∈ rest, specResolvable db1 s2 := by
      intro s2 hs2
      obtain ⟨hrL, hrT, hrQ⟩ := hres s2 (List.mem_cons_of_mem _ hs2)
      refine ⟨?_, ?_, ?_⟩
      · intro n hn
        rw [findLabelByName_congr hl1]
        exact hrL n hn
      · intro n hn
        rw [findTeamByName_congr ht1]
        exact hrT n hn
      · intro e he
        rw [savedQueryNamed_congr hq1]
        exact hrQ e he
    have hp1names : db1.packs.map PackRow.name =
        db.packs.map PackRow.name ++ [s.name] := by
      rw [hp1, List.map_append]
      rfl
    have hnames1 : (db1.packs.map PackRow.name ++ rest.map PackSpec.name).Nodup := by
      rw [hp1names, List.append_assoc, List.singleton_append]
      exact hnames
    rcases ih db1 hd1 hb1 hres1 hnames1 with
      ⟨db2, hloop, hq2, hl2, ht2, hp2, hg2⟩
    refine ⟨db2, ?_, ?_, ?_, ?_, ?_, ?_⟩
    · unfold applyPackSpecsLoop
      rw [happ]
      exact hloop
    · rw [hq2, hq1]
    · rw [hl2, hl1]
    · rw [ht2, ht1]
    · rw [hp2, hp1names, List.append_assoc, List.singleton_append]
      rfl
    · rw [hg2, hg1, List.append_assoc, List.singleton_append]
      rfl

/-- With unique pack names, the by-name read of any projected spec
succeeds and returns that spec. -/
theorem getPackSpec_of_mem (db : FleetDb)
    (hn : (db.packs.map PackRow.name).Nodup) :
    ∀ s ∈ GetPackSpecs db, GetPackSpec db s.name = .ok s := by
  intro s hs
  rcases List.mem_map.mp hs with ⟨p, hp, rfl⟩
  have hname : (specOfPack db p).name = p.name := rfl
  have hk := find_key_unique (fun p2 : PackRow => p2.name) db.packs hn p hp
  unfold GetPackSpec
  rw [hname]
  rw [show db.packs.find? (fun p2 => p2.name == p.name) = some p from hk]

/-- A spec whose entries all carry display names is its own
normalization. -/
theorem normalizeSpec_eq_self (s : PackSpec)
    (h : ∀ e ∈ s.queries, e.name ≠ "") : normalizeSpec s = s := by
  unfold normalizeSpec
  have : s.queries.map normalizeEntry = s.queries := by
    conv_rhs => rw [← List.map_id s.queries]
    refine List.map_congr_left ?_
    intro e he
    unfold normalizeEntry
    rw [if_neg (h e he)]
    rfl
  rw [this]

/-- The pack-row upsert never touches the directories. -/
theorem upsertPackRow_dirs (db : FleetDb) (s : PackSpec) :
    (upsertPackRow db s).1.queries = db.queries ∧
    (upsertPackRow db s).1.labels = db.labels ∧
    (upsertPackRow db s).1.teams = db.teams := by
  unfold upsertPackRow
  cases h : db.packs.find? (fun p => p.name == s.name) <;> exact ⟨rfl, rfl, rfl⟩

/-- The full target/entry replace never touches the directories. -/
theorem replacePack_dirs (d : FleetDb) (pid : Nat) (labelIds teamIds : List Nat)
    (hostIds : List Nat) (newEntries : List ScheduledEntry) :
    (replacePack d pid labelIds teamIds hostIds newEntries).queries = d.queries ∧
    (replacePack d pid labelIds teamIds hostIds newEntries).labels = d.labels ∧
    (replacePack d pid labelIds teamIds hostIds newEntries).teams = d.teams :=
  ⟨rfl, rfl, rfl⟩

/-- Applying one fully resolvable spec succeeds (whether the pack row is
new or reused) and leaves the directories untouched. -/
theorem applyOne_ok_dirs (db : FleetDb) (s : PackSpec)
    (hres : specResolvable db s) :
    ∃ db1, applyOnePackSpec db s = .ok db1 ∧ db1.queries = db.queries ∧
      db1.labels = db.labels ∧ db1.teams = db.teams := by
  obtain ⟨hrL, hrT, hrQ⟩ := hres
  have hL : ∀ n ∈ s.targets.labels, ∃ i, resolveLabel db n = .ok i := by
    intro n hn
    rcases Option.isSome_iff_exists.mp (hrL n hn) with ⟨l, hl⟩
    refine ⟨l.1, ?_⟩
    unfold resolveLabel
    rw [hl]
  have hT : ∀ n ∈ s.targets.teams, ∃ i, resolveTeam db n = .ok i := by
    intro n hn
    rcases Option.isSome_iff_exists.mp (hrT n hn) with ⟨t, ht⟩
    refine ⟨t.id, ?_⟩
    unfold resolveTeam
    rw [ht]
  have hQ : ∀ e ∈ s.queries, ∃ en,
      resolveEntry (upsertPackRow db s).1 (upsertPackRow db s).2 e = .ok en := by
    intro e he
    rcases Option.isSome_iff_exists.mp (hrQ e he) with ⟨q, hq⟩
    refine ⟨buildEntry (upsertPackRow db s).2 e q, ?_⟩
    unfold resolveEntry
    rw [savedQueryNamed_congr (upsertPackRow_dirs db s).1 e.queryName, hq]
  rcases mapME_ok s.targets.labels hL with ⟨labelIds, hLok, -⟩
  rcases mapME_ok s.targets.teams hT with ⟨teamIds, hTok, -⟩
  rcases mapME_ok s.queries hQ with ⟨newEntries, hQok, -⟩
  refine ⟨replacePack (upsertPackRow db s).1 (upsertPackRow db s).2 labelIds
    teamIds s.targets.hosts newEntries, ?_, ?_, ?_, ?_⟩
  · unfold applyOnePackSpec
    rw [hLok, hTok]
    simp [hQok]
  · rw [(replacePack_dirs _ _ _ _ _ _).1, (upsertPackRow_dirs db s).1]
  · rw [(replacePack_dirs _ _ _ _ _ _).2.1, (upsertPackRow_dirs db s).2.1]
  · rw [(replacePack_dirs _ _ _ _ _ _).2.2, (upsertPackRow_dirs db s).2.2]

/-- Resolving a list of entries containing an unresolvable query name
fails with the unknown-query error for an unresolvable name. -/
theorem mapME_resolveEntry_error (d : FleetDb) (pid : Nat) :
    ∀ (l : List PackSpecQuery), (∃ e ∈ l, savedQueryNamed d e.queryName = none) →
      ∃ n, savedQueryNamed d n = none ∧
        mapME (resolveEntry d pid) l =
          .error (.validation ("unknown query '" ++ n ++ "'")) := by
  intro l
  induction l with
  | nil => intro h; simp at h
  | cons e es ih =>
    intro h
    cases hq : savedQueryNamed d e.queryName with
    | none =>
      refine ⟨e.queryName, hq, ?_⟩
      have hok : resolveEntry d pid e =
          .error (.validation ("unknown query '" ++ e.queryName ++ "'")) := by
        unfold resolveEntry
        rw [hq]
      unfold mapME
      rw [hok]
    | some q =>
      have hofs : ∃ e2 ∈ es, savedQueryNamed d e2.queryName = none := by
        rcases h with ⟨e2, he2, hn⟩
        rcases List.mem_cons.mp he2 with rfl | hm
        · rw [hq] at hn; cases hn
        · exact ⟨e2, hm, hn⟩
      rcases ih hofs with ⟨n, hn, herr⟩
      refine ⟨n, hn, ?_⟩
      have hok : resolveEntry d pid e = .ok (buildEntry pid e q) := by
        unfold resolveEntry
        rw [hq]
      unfold mapME
      rw [hok, herr]

/-- A batch whose label and team references all resolve but containing an
unresolvable query name makes the reconciler loop fail with the
unknown-query error. -/
theorem applyLoop_unknown_query :
    ∀ (specs : List PackSpec) (db : FleetDb),
      (∀ s ∈ specs, (∀ n ∈ s.targets.labels, (findLabelByName db n).isSome) ∧
          (∀ n ∈ s.targets.teams, (findTeamByName db n).isSome)) →
      (∃ s ∈ specs, ∃ e ∈ s.queries, savedQueryNamed db e.queryName = none) →
      ∃ n, savedQueryNamed db n = none ∧
        applyPackSpecsLoop db specs =
          .error (.validation ("unknown query '" ++ n ++ "'")) := by
  intro specs
  induction specs with
  | nil => intro db _ h; simp at h
  | cons s rest ih =>
    intro db hlt hbad
    by_cases hcase : ∃ e ∈ s.queries, savedQueryNamed db e.queryName = none
    · obtain ⟨hltL, hltT⟩ := hlt s (List.mem_cons_self _ _)
      have hL : ∀ n ∈ s.targets.labels, ∃ i, resolveLabel db n = .ok i := by
        intro n hn
        rcases Option.isSome_iff_exists.mp (hltL n hn) with ⟨l, hl⟩
        refine ⟨l.1, ?_⟩
        unfold resolveLabel
        rw [hl]
      have hT : ∀ n ∈ s.targets.teams, ∃ i, resolveTeam db n = .ok i := by
        intro n hn
        rcases Option.isSome_iff_exists.mp (hltT n hn) with ⟨t, ht⟩
        refine ⟨t.id, ?_⟩
        unfold resolveTeam
        rw [ht]
      rcases mapME_ok s.targets.labels hL with ⟨labelIds, hLok, -⟩
      rcases mapME_ok s.targets.teams hT with ⟨teamIds, hTok, -⟩
      have hcase2 : ∃ e ∈ s.queries,
          savedQueryNamed (upsertPackRow db s).1 e.queryName = none := by
        rcases hcase with ⟨e, he, hn⟩
        exact ⟨e, he, by
          rw [savedQueryNamed_congr (upsertPackRow_dirs db s).1 e.queryName]
          exact hn⟩
      rcases mapME_resolveEntry_error (upsertPackRow db s).1 (upsertPackRow db s).2
          s.queries hcase2 with ⟨n, hn, herr⟩
      have hn2 : savedQueryNamed db n = none := by
        rw [← savedQueryNamed_congr (upsertPackRow_dirs db s).1 n]
        exact hn
      refine ⟨n, hn2, ?_⟩
      have happ : applyOnePackSpec db s =
          .error (.validation ("unknown query '" ++ n ++ "'")) := by
        unfold applyOnePackSpec
        rw [hLok, hTok]
        simp [herr]
      unfold applyPackSpecsLoop
      rw [happ]
    · have hresolv : specResolvable db s := by
        obtain ⟨hltL, hltT⟩ := hlt s (List.mem_cons_self _ _)
        refine ⟨hltL, hltT, ?_⟩
        intro e he
        rcases hopt : savedQueryNamed db e.queryName with _ | q
        · exact absurd ⟨e, he, hopt⟩ hcase
        · rfl
      rcases applyOne_ok_dirs db s hresolv with ⟨db1, happ, hq1, hl1, ht1⟩
      have hlt1 : ∀ s2 ∈ rest,
          (∀ n ∈ s2.targets.labels, (findLabelByName db1 n).isSome) ∧
          (∀ n ∈ s2.targets.teams, (findTeamByName db1 n).isSome) := by
        intro s2 hs2
        obtain ⟨h1, h2⟩ := hlt s2 (List.mem_cons_of_mem _ hs2)
        constructor
        · intro n hn
          rw [findLabelByName_congr hl1]
          exact h1 n hn
        · intro n hn
          rw [findTeamByName_congr ht1]
          exact h2 n hn
      have hbad1 : ∃ s2 ∈ rest, ∃ e ∈ s2.queries,
          savedQueryNamed db1 e.queryName = none := by
        rcases hbad with ⟨s2, hs2, e, he, hn⟩
        rcases List.mem_cons.mp hs2 with rfl | hm
        · exact absurd ⟨e, he, hn⟩ hcase
        · exact ⟨s2, hm, e, he, by
            rw [savedQueryNamed_congr hq1 e.queryName]
            exact hn⟩
      rcases ih db1 hlt1 hbad1 with ⟨n, hn, hloop⟩
      refine ⟨n, ?_, ?_⟩
      · rw [← savedQueryNamed_congr hq1 n]
        exact hn
      · unfold applyPackSpecsLoop
        rw [happ]
        exact hloop

/-! ### Claim theorems for the pack components -/

/-- C1: applying a batch of PackSpecs over a fresh pack state and reading
them back with GetPackSpecs, or each by name with GetPackSpec, reproduces
the input exactly — every optional per-entry field round-trips as unset
when unset and as false when explicitly false, the Option embedding
keeping the two distinct by construction. -/
theorem ApplyPackSpecs_roundtrip (db : FleetDb) (specs : List PackSpec)
    (hp : db.packs = []) (he : db.entries = [])
    (hl : db.labelPackTargets = []) (hh : db.hostPackTargets = [])
    (ht : db.teamPackTargets = [])
    (hd : dirGood db)
    (hres : ∀ s ∈ specs, specResolvable db s)
    (hnames : (specs.map PackSpec.name).Nodup)
    (hblank : ∀ s ∈ specs, ∀ e ∈ s.queries, e.name ≠ "") :
    ∃ db1, ApplyPackSpecs db specs = (db1, none) ∧
      GetPackSpecs db1 = specs ∧
      ∀ s ∈ specs, GetPackSpec db1 s.name = Except.ok s := by
  have hb : stateBounded db := by
    refine ⟨?_, ?_, ?_, ?_, ?_⟩
    · intro x hx; rw [hp] at hx; cases hx
    · intro x hx; rw [he] at hx; cases hx
    · intro x hx; rw [hl] at hx; cases hx
    · intro x hx; rw [ht] at hx; cases hx
    · intro x hx; rw [hh] at hx; cases hx
  have hnames0 : (db.packs.map PackRow.name ++ specs.map PackSpec.name).Nodup := by
    rw [hp]
    simpa using hnames
  rcases applyLoop_roundtrip specs db hd hb hres hnames0 with
    ⟨db1, hloop, hq1, hl1, ht1, hpn, hg⟩
  have hmapnorm : specs.map normalizeSpec = specs := by
    conv_rhs => rw [← List.map_id specs]
    refine List.map_congr_left ?_
    intro s hs
    rw [normalizeSpec_eq_self s (hblank s hs)]
    rfl
  have hget0 : GetPackSpecs db = [] := by
    unfold GetPackSpecs
    rw [hp]
    rfl
  have hg1 : GetPackSpecs db1 = specs := by
    rw [hg, hget0, hmapnorm, List.nil_append]
  have happ : ApplyPackSpecs db specs = (db1, none) := by
    unfold ApplyPackSpecs
    rw [hloop]
  have hnames1 : (db1.packs.map PackRow.name).Nodup := by
    rw [hpn, hp]
    simpa using hnames
  refine ⟨db1, happ, hg1, ?_⟩
  intro s hs
  refine getPackSpec_of_mem db1 hnames1 s ?_
  rw [hg1]
  exact hs

/-- Witness for C1 at the round-trip test's two specs. -/
theorem ApplyPackSpecs_roundtrip_witness :
    ∃ db1, ApplyPackSpecs wFdb wSpecs = (db1, none) ∧
      GetPackSpecs db1 = wSpecs ∧
      ∀ s ∈ wSpecs, GetPackSpec db1 s.name = Except.ok s :=
  ApplyPackSpecs_roundtrip wFdb wSpecs rfl rfl rfl rfl rfl
    (by decide) (by decide) (by decide) (by decide)

/-- C7: a scheduled entry with a blank display name is stored under its
referenced query's name, so the spec read back carries that query name as
the entry's display name. -/
theorem ApplyPackSpecs_blank_name_defaults (db : FleetDb) (specs : List PackSpec)
    (hp : db.packs = []) (he : db.entries = [])
    (hl : db.labelPackTargets = []) (hh : db.hostPackTargets = [])
    (ht : db.teamPackTargets = [])
    (hd : dirGood db)
    (hres : ∀ s ∈ specs, specResolvable db s)
    (hnames : (specs.map PackSpec.name).Nodup) :
    ∃ db1, ApplyPackSpecs db specs = (db1, none) ∧
      GetPackSpecs db1 = specs.map normalizeSpec ∧
      ∀ s ∈ specs, ∃ got, GetPackSpec db1 s.name = Except.ok got ∧
        got.queries.map (fun e => e.name) =
          s.queries.map (fun e => if e.name = "" then e.queryName else e.name) := by
  have hb : stateBounded db := by
    refine ⟨?_, ?_, ?_, ?_, ?_⟩
    · intro x hx; rw [hp] at hx; cases hx
    · intro x hx; rw [he] at hx; cases hx
    · intro x hx; rw [hl] at hx; cases hx
    · intro x hx; rw [ht] at hx; cases hx
    · intro x hx; rw [hh] at hx; cases hx
  have hnames0 : (db.packs.map PackRow.name ++ specs.map PackSpec.name).Nodup := by
    rw [hp]
    simpa using hnames
  rcases applyLoop_roundtrip specs db hd hb hres hnames0 with
    ⟨db1, hloop, hq1, hl1, ht1, hpn, hg⟩
  have hget0 : GetPackSpecs db = [] := by
    unfold GetPackSpecs
    rw [hp]
    rfl
  have hg1 : GetPackSpecs db1 = specs.map normalizeSpec := by
    rw [hg, hget0, List.nil_append]
  have happ : ApplyPackSpecs db specs = (db1, none) := by
    unfold ApplyPackSpecs
    rw [hloop]
  have hnames1 : (db1.packs.map PackRow.name).Nodup := by
    rw [hpn, hp]
    simpa using hnames
  refine ⟨db1, happ, hg1, ?_⟩
  intro s hs
  refine ⟨normalizeSpec s, ?_, ?_⟩
  · have hmem : normalizeSpec s ∈ GetPackSpecs db1 := by
      rw [hg1]
      exact List.mem_map_of_mem _ hs
    exact getPackSpec_of_mem db1 hnames1 (normalizeSpec s) hmem
  · unfold normalizeSpec
    rw [List.map_map]
    rfl

/-- Witness for C7 at the blank-named spec of the repository test. -/
theorem ApplyPackSpecs_blank_name_defaults_witness :
    ∃ db1, ApplyPackSpecs wFdb wSpecsBlank = (db1, none) ∧
      GetPackSpecs db1 = wSpecsBlank.map normalizeSpec ∧
      ∀ s ∈ wSpecsBlank, ∃ got, GetPackSpec db1 s.name = Except.ok got ∧
        got.queries.map (fun e => e.name) =
          s.queries.map (fun e => if e.name = "" then e.queryName else e.name) :=
  ApplyPackSpecs_blank_name_defaults wFdb wSpecsBlank rfl rfl rfl rfl rfl
    (by decide) (by decide) (by decide)

/-- C3: a batch whose label and team references resolve but in which some
scheduled entry names a query no saved query carries fails as a whole with
the error naming an unknown query, and the state is returned unchanged —
nothing from the batch persists. -/
theorem ApplyPackSpecs_unknown_query (db : FleetDb) (specs : List PackSpec)
    (hlt : ∀ s ∈ specs, (∀ n ∈ s.targets.labels, (findLabelByName db n).isSome) ∧
        (∀ n ∈ s.targets.teams, (findTeamByName db n).isSome))
    (hbad : ∃ s ∈ specs, ∃ e ∈ s.queries, savedQueryNamed db e.queryName = none) :
    ∃ n, savedQueryNamed db n = none ∧
      ApplyPackSpecs db specs =
        (db, some (.validation ("unknown query '" ++ n ++ "'"))) := by
  rcases applyLoop_unknown_query specs db hlt hbad with ⟨n, hn, hloop⟩
  refine ⟨n, hn, ?_⟩
  unfold ApplyPackSpecs
  rw [hloop]

/-- Witness for C3 at the missing-queries test's spec. -/
theorem ApplyPackSpecs_unknown_query_witness :
    ∃ n, savedQueryNamed wFdb n = none ∧
      ApplyPackSpecs wFdb wSpecsBad =
        (wFdb, some (.validation ("unknown query '" ++ n ++ "'"))) :=
  ApplyPackSpecs_unknown_query wFdb wSpecsBad (by decide) (by decide)

/-- C8: after a team rename, the next `EnsureTeamPack` renames the team's
system pack to the name derived from the team's new display name while
keeping the pack's identifier and scope tag; the derivation is a pure
function of the team's identity, and a changed team name always yields a
different pack name. -/
theorem EnsureTeamPack_rename (db : FleetDb) (teamId : Nat) (t : Team)
    (p : PackRow) (ht : findTeamById db teamId = some t)
    (hp : db.packs.find?
      (fun p2 => p2.packType == some (teamSchedulePackType t)) = some p) :
    (∃ p1, (EnsureTeamPack db teamId).2 = .ok p1 ∧ p1.id = p.id ∧
      p1.name = teamScheduleName t ∧ p1.packType = p.packType ∧
      p1 ∈ (EnsureTeamPack db teamId).1.packs) ∧
    (∀ t1 t2 : Team, t1.id = t2.id → t1.name = t2.name →
      teamScheduleName t1 = teamScheduleName t2) ∧
    (∀ t1 t2 : Team, t1.name ≠ t2.name →
      teamScheduleName t1 ≠ teamScheduleName t2) := by
  refine ⟨?_, ?_, ?_⟩
  · by_cases hname : p.name = teamScheduleName t
    · refine ⟨p, ?_, rfl, hname, rfl, ?_⟩
      · simp only [EnsureTeamPack, ht, hp, if_pos hname]
      · have hres : (EnsureTeamPack db teamId).1 = db := by
          simp only [EnsureTeamPack, ht, hp, if_pos hname]
        rw [hres]
        exact List.mem_of_find?_eq_some hp
    · refine ⟨{ p with name := teamScheduleName t }, ?_, rfl, rfl, rfl, ?_⟩
      · simp only [EnsureTeamPack, ht, hp, if_neg hname]
      · have hres : (EnsureTeamPack db teamId).1.packs =
            db.packs.map (fun p2 => if p2.id == p.id then
              { p with name := teamScheduleName t } else p2) := by
          simp only [EnsureTeamPack, ht, hp, if_neg hname]
        rw [hres]
        refine List.mem_map.mpr ⟨p, List.mem_of_find?_eq_some hp, ?_⟩
        simp
  · intro t1 t2 _ hn
    unfold teamScheduleName
    rw [hn]
  · intro t1 t2 hne heq
    apply hne
    unfold teamScheduleName at heq
    have hd := congrArg String.data heq
    simp at hd
    exact String.ext hd

/-- Witness for C8: the renamed team and its stale-named pack. -/
theorem EnsureTeamPack_rename_witness :
    ∃ p1, (EnsureTeamPack wFdb8 1).2 = .ok p1 ∧ p1.id = wPack.id ∧
      p1.name = teamScheduleName wTeam ∧ p1.packType = wPack.packType ∧
      p1 ∈ (EnsureTeamPack wFdb8 1).1.packs :=
  (EnsureTeamPack_rename wFdb8 1 wTeam wPack (by decide) (by decide)).1

/-- Witness for C5: re-applying `wQuery` over the store holding a row of
the same name. -/
theorem ApplyQueries_conflict_frame_witness :
    (ApplyQueries wQdb 3 [wQuery]).2 = none ∧
    (ApplyQueries wQdb 3 [wQuery]).1.rows.map (fun r2 => (r2.id, r2.createdAt)) =
      wQdb.rows.map (fun r2 => (r2.id, r2.createdAt)) ∧
    (∀ r2 ∈ wQdb.rows, r2.name ≠ wQuery.name →
      r2 ∈ (ApplyQueries wQdb 3 [wQuery]).1.rows) ∧
    (∃ r2 ∈ (ApplyQueries wQdb 3 [wQuery]).1.rows,
      r2.id = wQueryRow.id ∧ r2.createdAt = wQueryRow.createdAt ∧
      r2.name = wQuery.name ∧ r2.description = wQuery.description ∧
      r2.query = wQuery.query ∧ r2.authorID = 3 ∧ r2.saved = true ∧
      r2.observerCanRun = wQuery.observerCanRun) :=
  ApplyQueries_conflict_frame wQdb 3 wQuery (by decide) wQueryRow
    (by decide) (by decide)

/-- Witness for C10: the rewritten row of `wQdb` carries `saved = true`. -/
theorem ApplyQueries_saved_hardcoded_witness :
    wRowAfter ∈ wQdb.rows ∨ wRowAfter.saved = true :=
  ApplyQueries_saved_hardcoded wQdb 3 [wQuery] wRowAfter (by decide)

end Fleet
